import Mathlib

set_option linter.unusedSectionVars false

/-!
Verification development for the Crescent credential presentation core.

The BN254 group `G1` is cyclic of prime order `r`, so each group element is
determined by its discrete logarithm with respect to the fixed generator.  We
embed group elements as elements of the scalar field `F` (their discrete
logs): point addition becomes field addition and scalar multiplication
becomes field multiplication.  Field elements of the implementation are
likewise elements of `F`.  Randomness sampled from the system RNG and the
Fiat-Shamir hashes produced by the Merlin transcript are passed in
explicitly as parameters.  Rust panics (failed `assert!`, out-of-bounds
indexing, arithmetic aborts) are modelled by `Option`/`Except` with `none`
or an error value standing for the panic.
-/

namespace Crescent

/-- The classification of each public input (structs.rs, `PublicIOType`). -/
inductive PublicIOType where
  | Revealed
  | Hidden
  | Committed
deriving DecidableEq, Repr

/-- One entry of the Merlin transcript used by `DLogPoK`.  The constructors
mirror the labels passed to `add_to_transcript` in dlog.rs: "context string",
"num_bases", "base", "k" and "y". -/
inductive TEntry (F : Type) where
  | contextStr (bytes : List Nat)
  | numBases (n : Nat)
  | base (g : F)
  | commitK (g : F)
  | statementY (g : F)
deriving DecidableEq

/-- Embedding of `msm_select` (utils.rs): a multi-scalar multiplication, which
in discrete-log form is an inner product over the field. -/
def msm_select {F : Type} [Field F] (bases scalars : List F) : F :=
  (List.zipWith (fun b s => b * s) bases scalars).sum

/-- Embedding of the `DLogPoK` proof struct (dlog.rs): Fiat-Shamir challenge
`c` and the response matrix `s`. -/
structure DLogPoK (F : Type) where
  c : F
  s : List (List F)
deriving DecidableEq

namespace DLogPoK

variable {F : Type} [Field F] [DecidableEq F]

/-- The per-statement transcript entries appended by both `prove` and
`verify` in dlog.rs: for each statement `i` in order, `num_bases`, each base,
the commitment `k_i`, then `y_i`. -/
def dlogEntries (bases : List (List F)) (ks ys : List F) : List (TEntry F) :=
  (List.range ys.length).flatMap (fun i =>
    TEntry.numBases (bases.getD i []).length ::
      ((bases.getD i []).map TEntry.base ++
        [TEntry.commitK (ks.getD i 0), TEntry.statementY (ys.getD i 0)]))

/-- The full transcript: the context (label "context string") followed by the
per-statement entries. -/
def dlogTranscript (context : List Nat) (bases : List (List F)) (ks ys : List F) :
    List (TEntry F) :=
  TEntry.contextStr context :: dlogEntries bases ks ys

/-- The sequential overwrite `r[1][j] := r[0][i]` performed by `prove` for
each pair `(i, j)` in `eq_pos` (dlog.rs lines 72-74). -/
def eqOverwrite (r : List (List F)) (l : List (Nat × Nat)) : List (List F) :=
  l.foldl
    (fun acc p => acc.set 1 ((acc.getD 1 []).set p.2 ((acc.getD 0 []).getD p.1 0)))
    r

/-- The fresh blindings `r[i][j]` sampled by `prove`: `n` rows (one per
statement), row `i` shaped like `bases[i]`. -/
def freshR (n : Nat) (bases : List (List F)) (rsup : Nat → Nat → F) : List (List F) :=
  (List.range n).map (fun i =>
    (List.range (bases.getD i []).length).map (fun j => rsup i j))

/-- The blinding matrix actually used by `prove`: the fresh matrix, with the
`eq_pos` overwrites applied when present. -/
def proveR (n : Nat) (bases : List (List F)) (eqPos : Option (List (Nat × Nat)))
    (rsup : Nat → Nat → F) : List (List F) :=
  match eqPos with
  | none => freshR n bases rsup
  | some l => eqOverwrite (freshR n bases rsup) l

/-- The per-statement commitments `k_i = Σ_j bases[i][j]·r[i][j]` of `prove`. -/
def proveKs (n : Nat) (bases r : List (List F)) : List F :=
  (List.range n).map (fun i => msm_select (bases.getD i []) (r.getD i []))

/-- The proof `prove` produces on its success path: challenge from the
transcript, responses `s[i][j] = r[i][j] − c·scalars[i][j]`. -/
def proveResult (hash : List (TEntry F) → F) (context : List Nat)
    (y : List F) (bases scalars : List (List F))
    (eqPos : Option (List (Nat × Nat))) (rsup : Nat → Nat → F) : DLogPoK F :=
  let r := proveR y.length bases eqPos rsup
  let ks := proveKs y.length bases r
  let c := hash (dlogTranscript context bases ks y)
  { c := c
    s := (List.range y.length).map (fun i =>
      List.zipWith (fun rj xj => rj - c * xj) (r.getD i []) (scalars.getD i [])) }

/-- Embedding of `DLogPoK::prove` (dlog.rs).  The blindings `r[i][j]` are
supplied by `rsup i j`; the challenge is `hash` of the Merlin transcript.
`none` models a panic: the two `assert_eq!` length checks, the
`assert!(y.len() == 2)` guarding `eq_pos`, the out-of-bounds accesses
`r[0][i]`/`r[1][j]` during the overwrite, and the access `scalars[i][j]` in
the response loop. -/
def prove (hash : List (TEntry F) → F) (context : List Nat)
    (y : List F) (bases : List (List F)) (scalars : List (List F))
    (eqPos : Option (List (Nat × Nat))) (rsup : Nat → Nat → F) :
    Option (DLogPoK F) :=
  if y.length = bases.length then
    if bases.length = scalars.length then
      if (match eqPos with
          | none => true
          | some l =>
              decide (y.length = 2) &&
                l.all (fun p =>
                  decide (p.1 < ((freshR y.length bases rsup).getD 0 []).length) &&
                  decide (p.2 < ((freshR y.length bases rsup).getD 1 []).length))) then
        if (List.range y.length).all
            (fun i => decide ((bases.getD i []).length ≤ (scalars.getD i []).length)) then
          some (proveResult hash context y bases scalars eqPos rsup)
        else none
      else none
    else none
  else none

/-- The per-statement commitments recomputed by `verify`:
`k_i = Σ_j bases[i][j]·s[i][j] + c·y_i`. -/
def verifyKs (pf : DLogPoK F) (bases : List (List F)) (y : List F) : List F :=
  (List.range y.length).map (fun i =>
    msm_select (bases.getD i []) (pf.s.getD i []) + pf.c * y.getD i 0)

/-- Embedding of `DLogPoK::verify` (dlog.rs).  `none` models a panic: the
indexing `bases[i]`/`s[i]` for `i < y.len()`, the
`assert_eq!(bases[i].len(), s[i].len())`, the `assert!(y.len() == 2)`
guarding `eq_pos` and the accesses `s[0][i]`/`s[1][j]`.  `some false` is an
explicit verification failure; `some true` is acceptance. -/
def verify (pf : DLogPoK F) (hash : List (TEntry F) → F) (context : List Nat)
    (bases : List (List F)) (y : List F) (eqPos : Option (List (Nat × Nat))) :
    Option Bool :=
  if y.length ≤ bases.length then
    if y.length ≤ pf.s.length then
      if (List.range y.length).all
          (fun i => decide ((bases.getD i []).length = (pf.s.getD i []).length)) then
        match eqPos with
        | none =>
            some (decide (hash (dlogTranscript context bases (verifyKs pf bases y) y) = pf.c))
        | some l =>
            if y.length = 2 then
              if l.all (fun p =>
                  decide (p.1 < (pf.s.getD 0 []).length) &&
                  decide (p.2 < (pf.s.getD 1 []).length)) then
                if l.all (fun p =>
                    decide ((pf.s.getD 0 []).getD p.1 0 = (pf.s.getD 1 []).getD p.2 0)) then
                  some (decide
                    (hash (dlogTranscript context bases (verifyKs pf bases y) y) = pf.c))
                else some false
              else none
            else none
      else none
    else none
  else none

end DLogPoK

/-- Primality facts for the small fields used in concrete witnesses. -/
instance fact_prime_five : Fact (Nat.Prime 5) := ⟨by norm_num⟩

instance fact_prime_seventeen : Fact (Nat.Prime 17) := ⟨by norm_num⟩

/-- Modelled from the spec: the ark-groth16 `VerifyingKey` (the crate is an
external dependency, not vendored under src/).  Spec §3: "`alpha, beta,
gamma, delta` and an indexed basis `{L_i} ⊂ G1`, one per public input
position (index 0 reserved)".  Group elements are kept in discrete-log form:
`delta` is at once the dlog of `delta_g1` and of `delta_g2`, `gamma` the
dlog of `gamma_g2`, and `gammaABC` lists the dlogs of `gamma_abc_g1`. -/
structure GrothVK (F : Type) where
  alpha : F
  beta : F
  gamma : F
  delta : F
  gammaABC : List F
deriving DecidableEq

/-- Modelled from the spec: an ark-groth16 proof `(A ∈ G1, B ∈ G2, C ∈ G1)`
(spec §3), in discrete-log form. -/
structure GrothProof (F : Type) where
  a : F
  b : F
  c : F
deriving DecidableEq

section Groth16Rand

variable {F : Type} [Field F] [DecidableEq F]

/-- Modelled from the spec: ark-groth16's `prepare_inputs`, the "prepared
public input" of spec §3: `L_0 + Σ_i L_{i+1}·x_i`. -/
def groth16_prepare_inputs (vk : GrothVK F) (inputs : List F) : F :=
  vk.gammaABC.getD 0 0 + msm_select (vk.gammaABC.drop 1) inputs

/-- Modelled from the spec: Groth16's "verify with prepared inputs" entry
point (spec §4.3, verify step 3) — the standard Groth16 pairing check
`e(A,B) = e(α,β)·e(P,γ)·e(C,δ)` written on discrete logs, with `P` the
single aggregated public-input point. -/
def groth16_verify_prepared (vk : GrothVK F) (pf : GrothProof F) (pInput : F) : Bool :=
  decide (pf.a * pf.b = vk.alpha * vk.beta + pInput * vk.gamma + pf.c * vk.delta)

/-- Modelled from the spec: `Groth16::rerandomize_proof` (spec glossary:
"transformation `π → π'` that yields an independently distributed proof of
the same statement").  The standard rerandomization with nonzero factors
`r1, r2`: `A' = (1/r1)·A`, `B' = r1·B + r1·r2·δ₂`, `C' = C + r2·A`. -/
def groth16_rerandomize (vk : GrothVK F) (pf : GrothProof F) (r1 r2 : F) : GrothProof F :=
  { a := r1⁻¹ * pf.a
    b := r1 * pf.b + r1 * r2 * vk.delta
    c := pf.c + r2 * pf.a }

/-- Embedding of the `PedersenOpening` helper struct (dlog.rs): a commitment
`c` under `bases` with message `m` and randomness `r`. -/
structure PedersenOpening (F : Type) where
  bases : List F
  m : F
  r : F
  c : F
deriving DecidableEq

/-- Embedding of the relevant fields of `ClientState` (groth16rand.rs): the
cached public-input vector, the cached Groth16 proof and the verifying key.
The remaining fields (aux data, prepared key, credential type, config
string) carry no algebra used by `show_groth16`. -/
structure ClientState (F : Type) where
  inputs : List F
  proof : GrothProof F
  vk : GrothVK F
deriving DecidableEq

/-- Embedding of the `ShowGroth16` struct (groth16rand.rs), keeping the
source's field spelling `commited_inputs`. -/
structure ShowGroth16 (F : Type) where
  rand_proof : GrothProof F
  com_hidden_inputs : F
  pok_inputs : DLogPoK F
  commited_inputs : List F
deriving DecidableEq

/-- The ascending list of input indices carrying a given classification;
`show_groth16` and `ShowGroth16::verify` both walk `io_types` in this
order. -/
def idxOf (ioTypes : List PublicIOType) (t : PublicIOType) : List Nat :=
  (List.range ioTypes.length).filter (fun i => ioTypes.getD i .Revealed = t)

/-- The committed-input openings built by `show_groth16` (groth16rand.rs
lines 129-150), in ascending input-index order: commitment
`c = msm([delta_g1, L_{i+1}], [ρ_i, x_i])` with opening bases
`[L_{i+1}, delta_g1]`, message `x_i` and randomness `ρ_i`. -/
def committedOpenings (vk : GrothVK F) (inputs : List F) (ioTypes : List PublicIOType)
    (ρ : Nat → F) : List (PedersenOpening F) :=
  (idxOf ioTypes .Committed).map (fun i =>
    { bases := [vk.gammaABC.getD (i + 1) 0, vk.delta]
      m := inputs.getD i 0
      r := ρ i
      c := msm_select [vk.delta, vk.gammaABC.getD (i + 1) 0] [ρ i, inputs.getD i 0] })

/-- The hidden-input bases `L_{i+1}` collected by `show_groth16`. -/
def hiddenBases (vk : GrothVK F) (ioTypes : List PublicIOType) : List F :=
  (idxOf ioTypes .Hidden).map (fun i => vk.gammaABC.getD (i + 1) 0)

/-- The hidden-input scalars `x_i` collected by `show_groth16`. -/
def hiddenScalars (inputs : List F) (ioTypes : List PublicIOType) : List F :=
  (idxOf ioTypes .Hidden).map (fun i => inputs.getD i 0)

/-- The honest revealed values, in ascending input-index order: what the
verifier is given as `public_inputs` for the revealed positions. -/
def revealedInputs (inputs : List F) (ioTypes : List PublicIOType) : List F :=
  (idxOf ioTypes .Revealed).map (fun i => inputs.getD i 0)

/-- The aggregate commitment to the hidden inputs built by `show_groth16`:
`com_hidden = Σ_{i∈H} L_{i+1}·x_i + δ·z`. -/
def comHidden (cs : ClientState F) (ioTypes : List PublicIOType) (z : F) : F :=
  msm_select (hiddenBases cs.vk ioTypes ++ [cs.vk.delta])
    (hiddenScalars cs.inputs ioTypes ++ [z])

/-- The statement list `y` of the single `DLogPoK` run by `show_groth16`:
the committed commitments in index order, then `com_hidden`. -/
def showY (cs : ClientState F) (ioTypes : List PublicIOType) (ρ : Nat → F) (z : F) :
    List F :=
  (committedOpenings cs.vk cs.inputs ioTypes ρ).map (fun o => o.c) ++ [comHidden cs ioTypes z]

/-- The per-statement bases of the `DLogPoK` run by `show_groth16`:
`[L_{i+1}, δ]` per committed input, then the hidden bases with `δ`
appended. -/
def showBases (cs : ClientState F) (ioTypes : List PublicIOType) (ρ : Nat → F) :
    List (List F) :=
  (committedOpenings cs.vk cs.inputs ioTypes ρ).map (fun o => o.bases) ++
    [hiddenBases cs.vk ioTypes ++ [cs.vk.delta]]

/-- The per-statement scalars of the `DLogPoK` run by `show_groth16`:
`[x_i, ρ_i]` per committed input, then the hidden scalars with `z`
appended. -/
def showScalars (cs : ClientState F) (ioTypes : List PublicIOType) (ρ : Nat → F) (z : F) :
    List (List F) :=
  (committedOpenings cs.vk cs.inputs ioTypes ρ).map (fun o => [o.m, o.r]) ++
    [hiddenScalars cs.inputs ioTypes ++ [z]]

/-- The accumulated committed-input randomness `Σ_i ρ_i` subtracted (together
with `z`) from the rerandomized `C`. -/
def showAccR (cs : ClientState F) (ioTypes : List PublicIOType) (ρ : Nat → F) : F :=
  ((committedOpenings cs.vk cs.inputs ioTypes ρ).map (fun o => o.r)).sum

/-- Embedding of `ClientState::show_groth16` (groth16rand.rs lines 100-187).
Explicit randomness: `ρ i` is the committed-input blinding at input index
`i`, `z` the hidden-aggregate blinding, `r1 r2` the Groth16 rerandomization
factors, `rsup`/`hash` the blindings and Fiat-Shamir hash of the inner
`DLogPoK`.  The rerandomized proof's `C` receives the single corrective
subtraction `C := C − G·(Σ_i ρ_i + z)` (in dlog form the generator is `1`).
Returns the showing together with the `committed_input_openings` the call
stores in the client state; `none` models a panic inside `DLogPoK::prove`. -/
def show_groth16 (cs : ClientState F) (context : List Nat) (ioTypes : List PublicIOType)
    (ρ : Nat → F) (z r1 r2 : F) (rsup : Nat → Nat → F) (hash : List (TEntry F) → F) :
    Option (ShowGroth16 F × List (PedersenOpening F)) :=
  (DLogPoK.prove hash context (showY cs ioTypes ρ z) (showBases cs ioTypes ρ)
      (showScalars cs ioTypes ρ z) none rsup).map (fun pok =>
    ({ rand_proof :=
        { groth16_rerandomize cs.vk cs.proof r1 r2 with
          c := (groth16_rerandomize cs.vk cs.proof r1 r2).c - (showAccR cs ioTypes ρ + z) }
       com_hidden_inputs := comHidden cs ioTypes z
       pok_inputs := pok
       commited_inputs := (committedOpenings cs.vk cs.inputs ioTypes ρ).map (fun o => o.c) },
      committedOpenings cs.vk cs.inputs ioTypes ρ))

/-- The aggregated public input recomputed by the verifier (groth16rand.rs
lines 238-271): `com_hidden + L_0 + Σ committed C_i + Σ L_{rev+1}·x_rev`. -/
def verifyComInputs (sg : ShowGroth16 F) (vk : GrothVK F) (ioTypes : List PublicIOType)
    (public_inputs : List F) : F :=
  sg.com_hidden_inputs + vk.gammaABC.getD 0 0 +
    (sg.commited_inputs.take (idxOf ioTypes .Committed).length).sum +
    msm_select ((idxOf ioTypes .Revealed).map (fun i => vk.gammaABC.getD (i + 1) 0))
      public_inputs

/-- The per-statement bases rebuilt by the verifier, mirroring the prover. -/
def verifyBases (vk : GrothVK F) (ioTypes : List PublicIOType) : List (List F) :=
  (idxOf ioTypes .Committed).map (fun i => [vk.gammaABC.getD (i + 1) 0, vk.delta]) ++
    [hiddenBases vk ioTypes ++ [vk.delta]]

/-- Embedding of `ShowGroth16::verify` (groth16rand.rs lines 224-298).
`none` models a panic (too few `public_inputs` or commitments for the
classification, or a panic inside `DLogPoK::verify`); otherwise the result
is `groth16_valid && dlog_pok_valid`. -/
def ShowGroth16.verify (sg : ShowGroth16 F) (vk : GrothVK F) (context : List Nat)
    (ioTypes : List PublicIOType) (public_inputs : List F)
    (hash : List (TEntry F) → F) : Option Bool :=
  if (idxOf ioTypes .Revealed).length ≤ public_inputs.length then
    if (idxOf ioTypes .Committed).length ≤ sg.commited_inputs.length then
      (sg.pok_inputs.verify hash context (verifyBases vk ioTypes)
          (sg.commited_inputs ++ [sg.com_hidden_inputs]) none).map
        (fun dlog_pok_valid =>
          groth16_verify_prepared vk sg.rand_proof
            (verifyComInputs sg vk ioTypes public_inputs) && dlog_pok_valid)
    else none
  else none

end Groth16Rand

/-- A Rust panic (failed `unwrap`, `assert!` or out-of-bounds index). -/
inductive Panicked where
  | panic
deriving DecidableEq, Repr

/-- Outcome of one revealed attribute in `verify_show`/`verify_show_mdl`:
whether the `"<attr>_value"` lookup in io_locations succeeds, and whether
the final output conversion succeeds (claim type numeric, or
`unpack_int_to_string_unquoted` returns Ok). -/
structure RevealedAttrOutcome where
  lookupFound : Bool
  unpackOk : Bool
deriving DecidableEq, Repr

/-- Outcome of one hashed attribute: whether its `"<attr>_digest"` location
exists, whether the prover supplied its preimage, and whether the supplied
preimage is a JSON string. -/
structure HashedAttrOutcome where
  digestLocFound : Bool
  preimageProvided : Bool
  preimageIsString : Bool
deriving DecidableEq, Repr

/-- Outcome of one `range_over_year` attribute in `verify_show_mdl`:
whether `days_to_be_age` completes (its internal assert), whether
`commited_inputs[i+3]` is in bounds, whether the `"<attr>_value"` lookups
succeed (once while building io_types, once in the verification loop), and
whether its range proof verifies. -/
structure RangeAttrOutcome where
  locFoundTypes : Bool
  daysOk : Bool
  commitIndexOk : Bool
  locFoundVerify : Bool
  rangeOk : Bool
deriving DecidableEq, Repr

/-- Environment for the control-flow skeleton of `verify_show` (lib.rs lines
532-722): the outcome of each externally-computed step, plus the two clocks
of the freshness check.  `successJson` stands for the serialized revealed
map returned on success. -/
structure VerifyShowEnv where
  expValueLocFound : Bool
  proofSpecOk : Bool
  revealed : List RevealedAttrOutcome
  hashed : List HashedAttrOutcome
  preimagesPresent : Bool
  preimagesParseOk : Bool
  deviceBound : Bool
  deviceKeyLocsFound : Bool
  pemOk : Bool
  groth16 : Option Bool
  nowSeconds : Nat
  curTime : Nat
  rangeOk : Bool
  deviceProofPresent : Bool
  deviceOk : Bool
  successJson : String
deriving DecidableEq, Repr

/-- Embedding of `SHOW_PROOF_VALIDITY_SECONDS` (lib.rs line 52). -/
def SHOW_PROOF_VALIDITY_SECONDS : Nat := 300

/-- Control-flow skeleton of `verify_show` (lib.rs lines 532-722), faithful
to the order of the checks and to each failure's returned value.  Panics
(`unwrap` on a missing io_location, the `assert!` on missing
`revealed_preimages` at line 565, the `unwrap`s inside
`sort_by_io_location`, a panic inside `show_groth16.verify`) are
`Except.error .panic`.  The freshness delta is
`now_seconds.saturating_sub(cur_time)`, which on `Nat` is truncated
subtraction. -/
def verify_show (env : VerifyShowEnv) : Except Panicked (Bool × String) :=
  if ¬ env.expValueLocFound then .error .panic
  else if ¬ env.proofSpecOk then .ok (false, "")
  else if ¬ env.revealed.all (fun a => a.lookupFound) then .ok (false, "")
  else if ¬ env.hashed.isEmpty ∧ ¬ env.preimagesPresent then .error .panic
  else if ¬ env.hashed.isEmpty ∧ ¬ env.preimagesParseOk then .ok (false, "")
  else if ¬ env.hashed.isEmpty ∧ ¬ env.hashed.all (fun a => a.digestLocFound) then
    .error .panic
  else if ¬ env.hashed.all (fun a => a.preimageProvided) then .ok (false, "")
  else if ¬ env.hashed.all (fun a => a.preimageIsString) then .ok (false, "")
  else if env.deviceBound ∧ ¬ env.deviceKeyLocsFound then .error .panic
  else if ¬ env.pemOk then .ok (false, "")
  else
    match env.groth16 with
    | none => .error .panic
    | some false => .ok (false, "")
    | some true =>
        if env.nowSeconds - env.curTime > SHOW_PROOF_VALIDITY_SECONDS then .ok (false, "")
        else if ¬ env.rangeOk then .ok (false, "")
        else if env.deviceBound ∧ ¬ env.deviceProofPresent then
          .ok (false, "Device proof missing in show_proof")
        else if env.deviceBound ∧ ¬ env.deviceOk then .ok (false, "")
        else if ¬ env.revealed.all (fun a => a.unpackOk) then .ok (false, "")
        else if ¬ env.hashed.all (fun a => a.preimageProvided) then .ok (false, "")
        else .ok (true, env.successJson)

/-- Environment for the control-flow skeleton of `verify_show_mdl` (lib.rs
lines 724-954). -/
structure VerifyShowMdlEnv where
  proofSpecOk : Bool
  validUntilLocFound : Bool
  rangeAttrs : List RangeAttrOutcome
  revealed : List RevealedAttrOutcome
  hashed : List HashedAttrOutcome
  preimagesPresent : Bool
  preimagesParseOk : Bool
  deviceBound : Bool
  deviceKeyLocsFound : Bool
  pemOk : Bool
  groth16 : Option Bool
  nowSeconds : Nat
  curTime : Nat
  rangeOk : Bool
  deviceProofPresent : Bool
  deviceOk : Bool
  successJson : String
deriving DecidableEq, Repr

/-- The per-attribute range-proof verification loop of `verify_show_mdl`
(lib.rs lines 863-892), with first-failure semantics: `days_to_be_age`'s
assert and the `commited_inputs[i+3]` indexing panic; a missing io_location
or a failed range verification returns `(false, "")`; `none` means the loop
completed. -/
def mdlRangeLoop : List RangeAttrOutcome → Except Panicked (Option (Bool × String))
  | [] => .ok none
  | a :: rest =>
      if ¬ a.daysOk then .error .panic
      else if ¬ a.commitIndexOk then .error .panic
      else if ¬ a.locFoundVerify then .ok (some (false, ""))
      else if ¬ a.rangeOk then .ok (some (false, ""))
      else mdlRangeLoop rest

/-- Control-flow skeleton of `verify_show_mdl` (lib.rs lines 724-954),
faithful to the order of the checks and each failure's returned value. -/
def verify_show_mdl (env : VerifyShowMdlEnv) : Except Panicked (Bool × String) :=
  if ¬ env.proofSpecOk then .ok (false, "")
  else if ¬ env.validUntilLocFound then .error .panic
  else if ¬ env.rangeAttrs.all (fun a => a.locFoundTypes) then .ok (false, "")
  else if ¬ env.revealed.all (fun a => a.lookupFound) then .ok (false, "")
  else if ¬ env.hashed.isEmpty ∧ ¬ env.preimagesPresent then .error .panic
  else if ¬ env.hashed.isEmpty ∧ ¬ env.preimagesParseOk then .ok (false, "")
  else if ¬ env.hashed.isEmpty ∧ ¬ env.hashed.all (fun a => a.digestLocFound) then
    .error .panic
  else if ¬ env.hashed.all (fun a => a.preimageProvided) then .ok (false, "")
  else if ¬ env.hashed.all (fun a => a.preimageIsString) then .ok (false, "")
  else if env.deviceBound ∧ ¬ env.deviceKeyLocsFound then .error .panic
  else if ¬ env.pemOk then .ok (false, "")
  else
    match env.groth16 with
    | none => .error .panic
    | some false => .ok (false, "")
    | some true =>
        if env.nowSeconds - env.curTime > SHOW_PROOF_VALIDITY_SECONDS then .ok (false, "")
        else if ¬ env.rangeOk then .ok (false, "")
        else
          match mdlRangeLoop env.rangeAttrs with
          | .error p => .error p
          | .ok (some r) => .ok r
          | .ok none =>
              if env.deviceBound ∧ ¬ env.deviceProofPresent then
                .ok (false, "Device proof missing in show_proof")
              else if env.deviceBound ∧ ¬ env.deviceOk then .ok (false, "")
              else if ¬ env.revealed.all (fun a => a.unpackOk) then .ok (false, "")
              else if ¬ env.hashed.all (fun a => a.preimageProvided) then .ok (false, "")
              else .ok (true, env.successJson)

/-- All checks of `verify_show` that run before the freshness comparison
(io_locations lookups, proof-spec resolution, revealed/hashed handling,
device-key lookups, issuer-key conversion) succeed. -/
def VerifyShowEnv.preFreshnessOk (env : VerifyShowEnv) : Prop :=
  env.expValueLocFound = true ∧ env.proofSpecOk = true ∧
  env.revealed.all (fun a => a.lookupFound) = true ∧
  (env.hashed.isEmpty = true ∨
    (env.preimagesPresent = true ∧ env.preimagesParseOk = true ∧
      env.hashed.all (fun a => a.digestLocFound) = true)) ∧
  env.hashed.all (fun a => a.preimageProvided) = true ∧
  env.hashed.all (fun a => a.preimageIsString) = true ∧
  (env.deviceBound = false ∨ env.deviceKeyLocsFound = true) ∧
  env.pemOk = true

instance (env : VerifyShowEnv) : Decidable env.preFreshnessOk := by
  unfold VerifyShowEnv.preFreshnessOk
  infer_instance

/-- All checks of `verify_show` that run after the freshness comparison
succeed. -/
def VerifyShowEnv.postChecksOk (env : VerifyShowEnv) : Prop :=
  env.rangeOk = true ∧
  (env.deviceBound = false ∨ (env.deviceProofPresent = true ∧ env.deviceOk = true)) ∧
  env.revealed.all (fun a => a.unpackOk) = true

instance (env : VerifyShowEnv) : Decidable env.postChecksOk := by
  unfold VerifyShowEnv.postChecksOk
  infer_instance

/-- All checks of `verify_show_mdl` before the freshness comparison
succeed. -/
def VerifyShowMdlEnv.preFreshnessOk (env : VerifyShowMdlEnv) : Prop :=
  env.proofSpecOk = true ∧ env.validUntilLocFound = true ∧
  env.rangeAttrs.all (fun a => a.locFoundTypes) = true ∧
  env.revealed.all (fun a => a.lookupFound) = true ∧
  (env.hashed.isEmpty = true ∨
    (env.preimagesPresent = true ∧ env.preimagesParseOk = true ∧
      env.hashed.all (fun a => a.digestLocFound) = true)) ∧
  env.hashed.all (fun a => a.preimageProvided) = true ∧
  env.hashed.all (fun a => a.preimageIsString) = true ∧
  (env.deviceBound = false ∨ env.deviceKeyLocsFound = true) ∧
  env.pemOk = true

instance (env : VerifyShowMdlEnv) : Decidable env.preFreshnessOk := by
  unfold VerifyShowMdlEnv.preFreshnessOk
  infer_instance

/-- All checks of `verify_show_mdl` after the freshness comparison
succeed. -/
def VerifyShowMdlEnv.postChecksOk (env : VerifyShowMdlEnv) : Prop :=
  env.rangeOk = true ∧
  env.rangeAttrs.all
    (fun a => a.daysOk && a.commitIndexOk && a.locFoundVerify && a.rangeOk) = true ∧
  (env.deviceBound = false ∨ (env.deviceProofPresent = true ∧ env.deviceOk = true)) ∧
  env.revealed.all (fun a => a.unpackOk) = true

instance (env : VerifyShowMdlEnv) : Decidable env.postChecksOk := by
  unfold VerifyShowMdlEnv.postChecksOk
  infer_instance

/-- The shape of every result `verify_show`/`verify_show_mdl` can produce:
a panic, a bare `(false, "")`, the missing-device-proof message (only when
the credential is device-bound and the proof lacks a device proof), or
success. -/
def ResultShape (deviceBound deviceProofPresent : Bool) (successJson : String)
    (r : Except Panicked (Bool × String)) : Prop :=
  r = .error .panic ∨ r = .ok (false, "") ∨
    (r = .ok (false, "Device proof missing in show_proof") ∧
      deviceBound = true ∧ deviceProofPresent = false) ∨
    r = .ok (true, successJson)

/-- A concrete device-bound `verify_show` environment in which every
check up to the device-proof test passes but the show proof carries no
device proof. -/
def envDeviceMissing : VerifyShowEnv :=
  ⟨true, true, [], [], true, true, true, true, true, some true, 1000, 1000,
    true, false, true, "ok"⟩

/-- A stale `verify_show` environment (`cur_time` 301 seconds old) whose
Groth16 check panics. -/
def envStalePanic : VerifyShowEnv :=
  ⟨true, true, [], [], true, true, false, true, true, none, 1301, 1000,
    true, true, true, "ok"⟩

/-- A stale but otherwise valid `verify_show` environment. -/
def envC4Stale : VerifyShowEnv :=
  ⟨true, true, [], [], true, true, false, true, true, some true, 1301, 1000,
    true, true, true, "ok"⟩

/-- A fresh (`cur_time` exactly 300 seconds old) valid `verify_show`
environment. -/
def envC4Fresh : VerifyShowEnv :=
  ⟨true, true, [], [], true, true, false, true, true, some true, 1300, 1000,
    true, true, true, "ok"⟩

/-- A stale but otherwise valid `verify_show_mdl` environment. -/
def envC4MdlStale : VerifyShowMdlEnv :=
  ⟨true, true, [], [], [], true, true, false, true, true, some true, 1301, 1000,
    true, true, true, "ok"⟩

/-- A fresh valid `verify_show_mdl` environment. -/
def envC4MdlFresh : VerifyShowMdlEnv :=
  ⟨true, true, [], [], [], true, true, false, true, true, some true, 1300, 1000,
    true, true, true, "ok"⟩

/-- A valid `verify_show` environment whose `cur_time` lies far in the
future of the verifier clock. -/
def envC9Future : VerifyShowEnv :=
  ⟨true, true, [], [], true, true, false, true, true, some true, 1000,
    999999999, true, true, true, "ok"⟩

/-- A valid `verify_show_mdl` environment whose `cur_time` lies far in the
future of the verifier clock. -/
def envC9MdlFuture : VerifyShowMdlEnv :=
  ⟨true, true, [], [], [], true, true, false, true, true, some true, 1000,
    999999999, true, true, true, "ok"⟩

/-- The order of the BN254 scalar field `Fr` of `ark_bn254` (`ECPairing`
in lib.rs line 5), over which all committed values live. -/
def bn254_r : Nat :=
  21888242871839275222246405745257275088548364400416034343698204186575808495617

instance : NeZero bn254_r := ⟨by norm_num [bn254_r]⟩

/-- Embedding of `RANGE_PROOF_INTERVAL_BITS` (lib.rs line 51). -/
def RANGE_PROOF_INTERVAL_BITS : Nat := 32

/-- The panic guards of `ClientState::show_range` (groth16rand.rs 193-217):
`assert!(n < 64)` and `assert!(ped_open.m < bound)` with
`bound = Fr::from(1u64 << n)`.  `ark-ff` orders field elements by their
canonical integer representative, so the second assert is `m.val < 2^n`.
On success the range proof itself is produced (elided here). -/
def show_range (m : ZMod bn254_r) (n : Nat) : Except Panicked Unit :=
  if n < 64 ∧ m.val < 2 ^ n then .ok () else .error .panic

/-- The expiration-range slice of `create_show_proof` (lib.rs 367-374): the
opening of the committed `exp_value` input is shifted by the current time
(`com_exp_value.m -= cur_time`, with the commitment shifted to match) and
passed to `show_range` with `RANGE_PROOF_INTERVAL_BITS` bits. -/
def create_show_proof_expiration (exp curTime : ZMod bn254_r) :
    Except Panicked Unit :=
  show_range (exp - curTime) RANGE_PROOF_INTERVAL_BITS

/-- The `io_types` vector built by `create_show_proof_mdl` (lib.rs 408-459):
all inputs start `Hidden`; `valid_until_value` and each `range_over_year`
attribute are set `Committed`; the issuer public-key indices, the revealed
attributes and the hashed attributes are set `Revealed`; if `device_bound`,
the two device-key positions are set `Committed`. -/
def mdl_io_types (inputsLen validUntilPos : Nat)
    (rangeLocs pubKeyIdx revealedLocs hashedLocs : List Nat)
    (deviceBound : Bool) (deviceKey0Pos deviceKey1Pos : Nat) : List PublicIOType :=
  let base := hashedLocs.foldl (fun t loc => t.set (loc - 1) .Revealed)
    (revealedLocs.foldl (fun t loc => t.set (loc - 1) .Revealed)
      (pubKeyIdx.foldl (fun t i => t.set i .Revealed)
        (rangeLocs.foldl (fun t loc => t.set (loc - 1) .Committed)
          ((List.replicate inputsLen PublicIOType.Hidden).set (validUntilPos - 1)
            .Committed))))
  if deviceBound then
    (base.set (deviceKey0Pos - 1) .Committed).set (deviceKey1Pos - 1) .Committed
  else base

/-- The attribute-range loop of `create_show_proof_mdl` (lib.rs 501-514):
`commitment_index` starts at 3 ("skip the first 3 commitments (validUntil,
device_key_0, device_key_1)") and advances by one per `range_over_year`
entry.  Each iteration clones `committed_input_openings[commitment_index]`
— a Rust index that panics when out of bounds — shifts the message by the
`days_in_age` field element and runs `show_range`. -/
def create_show_proof_mdl_ranges
    (openings : List (PedersenOpening (ZMod bn254_r)))
    (ages : List (ZMod bn254_r)) (idx : Nat) : Except Panicked (List Unit) :=
  match ages with
  | [] => .ok []
  | a :: rest =>
      match openings.get? idx with
      | none => .error .panic
      | some o =>
          match show_range (o.m - a) RANGE_PROOF_INTERVAL_BITS with
          | .error p => .error p
          | .ok u =>
              match create_show_proof_mdl_ranges openings rest (idx + 1) with
              | .error p => .error p
              | .ok l => .ok (u :: l)

/-- Embedding of `DAYS_IN_MONTH` (daystamp.rs line 10); index 0 holds the
`usize::MAX` placeholder, never read because every caller first checks
`1 <= month <= 12`. -/
def DAYS_IN_MONTH : List Nat :=
  [18446744073709551615, 31, 28, 31, 30, 31, 30, 31, 31, 30, 31, 30, 31]

/-- Embedding of `DAYS_BEFORE_MONTH` (daystamp.rs line 11). -/
def DAYS_BEFORE_MONTH : List Nat :=
  [18446744073709551615, 0, 31, 59, 90, 120, 151, 181, 212, 243, 273, 304, 334]

/-- Embedding of `is_leap` (daystamp.rs 13-15). -/
def is_leap (year : Nat) : Bool :=
  (year % 4 == 0) && (year % 100 != 0 || year % 400 == 0)

/-- Embedding of `days_before_year` (daystamp.rs 17-20), exactly as coded:
`y*365 + y/4 + y/100 + y/400` with `y = year - 1` — note the `+ y/100`. -/
def days_before_year (year : Nat) : Nat :=
  let y := year - 1
  y * 365 + y / 4 + y / 100 + y / 400

/-- Embedding of `days_in_month` (daystamp.rs 22-28); the `assert!` on the
month range is `none`. -/
def days_in_month (year month : Nat) : Option Nat :=
  if 1 ≤ month ∧ month ≤ 12 then
    some (if month == 2 && is_leap year then 29 else DAYS_IN_MONTH.getD month 0)
  else none

/-- Embedding of `days_before_month` (daystamp.rs 30-34). -/
def days_before_month (year month : Nat) : Option Nat :=
  if 1 ≤ month ∧ month ≤ 12 then
    some (DAYS_BEFORE_MONTH.getD month 0 +
      if month > 2 && is_leap year then 1 else 0)
  else none

/-- Embedding of `ymd_to_ordinal` (daystamp.rs 36-41): asserts the month
range, the day range against `days_in_month`, then sums
`days_before_year + days_before_month + day`. -/
def ymd_to_ordinal (year month day : Nat) : Option Nat :=
  if 1 ≤ month ∧ month ≤ 12 then
    (days_in_month year month).bind (fun dim =>
      if 1 ≤ day ∧ day ≤ dim then
        (days_before_month year month).bind (fun dbm =>
          some (days_before_year year + dbm + day))
      else none)
  else none

/-- Embedding of `days_to_be_age` (daystamp.rs 46-64), with the local date
`(year, month, day)` made an explicit parameter: computes today's ordinal,
maps Feb 29 to Feb 28 for the shifted date, computes the ordinal of the
same date `age` years earlier, asserts `today_stamp > past_stamp` and
returns the difference.  (`year - age` is Rust release-mode `usize`
subtraction, i.e. truncated.) -/
def days_to_be_age (year month day age : Nat) : Option Nat :=
  (ymd_to_ordinal year month day).bind (fun today_stamp =>
    (ymd_to_ordinal (year - age) month
      (if month == 2 && day == 29 then 28 else day)).bind (fun past_stamp =>
      if today_stamp > past_stamp then some (today_stamp - past_stamp)
      else none))

/-- Modelled from the spec: the proleptic Gregorian day count before the
given year, as in the CPython `datetime` source that daystamp.rs says it
ports: `y*365 + y/4 − y/100 + y/400`. -/
def spec_days_before_year (year : Nat) : Nat :=
  let y := year - 1
  y * 365 + y / 4 - y / 100 + y / 400

/-- Modelled from the spec: proleptic Gregorian ordinal
(1 January of year 1 = day 1). -/
def spec_ymd_to_ordinal (year month day : Nat) : Option Nat :=
  if 1 ≤ month ∧ month ≤ 12 then
    (days_in_month year month).bind (fun dim =>
      if 1 ≤ day ∧ day ≤ dim then
        (days_before_month year month).bind (fun dbm =>
          some (spec_days_before_year year + dbm + day))
      else none)
  else none

/-- Modelled from the spec: `ordinal(Y,M,D) − ordinal(Y−A,M,D2)` on
proleptic Gregorian ordinals, with Feb 29 mapped to Feb 28. -/
def spec_days_to_be_age (year month day age : Nat) : Option Nat :=
  (spec_ymd_to_ordinal year month day).bind (fun today_stamp =>
    (spec_ymd_to_ordinal (year - age) month
      (if month == 2 && day == 29 then 28 else day)).bind (fun past_stamp =>
      if today_stamp > past_stamp then some (today_stamp - past_stamp)
      else none))

section RangePoly

variable {F : Type} [Field F] [DecidableEq F]

/-- Evaluation of a coefficient list (little-endian) at a point, by Horner's
rule — the dense-polynomial evaluation of ark-poly. -/
def evalP (l : List F) (x : F) : F := l.foldr (fun c acc => c + x * acc) 0

/-- Coefficient-wise polynomial addition (ark `&p + &q`). -/
def addP : List F → List F → List F
  | [], b => b
  | a, [] => a
  | x :: xs, y :: ys => (x + y) :: addP xs ys

/-- Coefficient-wise polynomial subtraction (ark `&p - &q`). -/
def subP : List F → List F → List F
  | [], b => b.map (fun y => -y)
  | a, [] => a
  | x :: xs, y :: ys => (x - y) :: subP xs ys

/-- Scaling every coefficient (the `coeffs.iter_mut().for_each(|x| *x *= c)`
pattern of rangeproof.rs). -/
def smulP (c : F) (l : List F) : List F := l.map (fun a => c * a)

/-- Polynomial product (ark `&p * &q`). -/
def mulP : List F → List F → List F
  | [], _ => []
  | x :: xs, b => addP (smulP x b) (0 :: mulP xs b)

/-- Multiplication by `X^n − 1` (ark `mul_by_vanishing_poly`). -/
def mulVan (n : Nat) (l : List F) : List F :=
  subP (List.replicate n 0 ++ l) l

/-- Quotient of the synthetic division of `l` by the linear factor `X − z`
(ark division by `from_coefficients_vec(vec![-z, 1])`, and the witness
polynomial `(p − p(z))/(X − z)` of `KZG10::open`).  The invariant is
`evalP l x = (x − z)·evalP (divLin l z) x + evalP l z`. -/
def divLin : List F → F → List F
  | [], _ => []
  | _ :: rest, z => evalP rest z :: divLin rest z

/-- One peeling step of division by `X^n − 1`: `p = lo + X^n·hi`
`= (lo + hi) + hi·(X^n − 1)`, so recurse on `lo + hi` and add `hi` to the
quotient.  `fuel` bounds the recursion depth (`p.length` always suffices). -/
def divVanAux (n : Nat) : Nat → List F → List F × List F
  | 0, l => ([], l)
  | fuel + 1, l =>
      if l.length ≤ n then ([], l)
      else
        let s := addP (l.take n) (l.drop n)
        let qr := divVanAux n fuel s
        (addP qr.1 (l.drop n), qr.2)

/-- Euclidean division of `l` by the vanishing polynomial `X^n − 1`
(ark `divide_by_vanishing_poly`): returns `(quotient, remainder)` with
`l = q·(X^n − 1) + r` and `r.length ≤ n`. -/
def divVan (n : Nat) (l : List F) : List F × List F := divVanAux n l.length l

/-- A hiding KZG commitment in discrete-log form: with `powers_of_g[i]` the
dlog `β^i` and `powers_of_gamma_g[i]` the dlog `γ·β^i`, `KZG10::commit`
computes `p(β) + γ·φ(β)` where `φ` is the blinding polynomial. -/
def KZGcommit (β γ : F) (pl φ : List F) : F := evalP pl β + γ * evalP φ β

/-- `KZG10::open` in discrete-log form: the proof is
`(w, random_v) = (ψ(β) + γ·ψ_φ(β), φ(z))` with `ψ = (p − p(z))/(X − z)` and
`ψ_φ = (φ − φ(z))/(X − z)`. -/
def KZGopen (β γ : F) (pl φ : List F) (z : F) : F × F :=
  (evalP (divLin pl z) β + γ * evalP (divLin φ z) β, evalP φ z)

/-- Proof-side bridge from coefficient lists to Mathlib polynomials. -/
noncomputable def toPoly (l : List F) : Polynomial F :=
  l.foldr (fun c acc => Polynomial.C c + Polynomial.X * acc) 0

/-- The `usize::is_power_of_two` guard of prove_n_bits: `n` is a power of
two iff some `2^k = n` (and then `k ≤ n`). -/
def is_power_of_two (n : Nat) : Bool := (List.range (n + 1)).any (fun k => 2 ^ k == n)

/-- Embedding of the `RangeProof` struct (rangeproof.rs 82-93); KZG proofs
are `(w, random_v)` pairs in discrete-log form. -/
structure RangeProof (F : Type) where
  com_f : F
  com_g : F
  eval_g : F
  proof_g : F × F
  eval_gw : F
  proof_gw : F × F
  com_q : F
  eval_w_hat : F
  proof_w_hat : F × F
  dleq_proof : DLogPoK F

/-- The basis `com_f` is opened over: `[γ, γβ, γβ², β⁰] ` — the first three
`powers_of_gamma_g` and `powers_of_g[0]` (rangeproof.rs 42-47 and 218-224),
in discrete-log form. -/
def com_f_basis (β γ : F) : List F := [γ, γ * β, γ * β ^ 2, 1]

end RangePoly

section RangeC5

variable {p : Nat} [Fact (Nat.Prime p)]

/-- The `j`-th bit of the committed value, as a field element: ark's
`elem.into_bigint().to_bits_le()` lists the binary digits of the canonical
representative `m.val`. -/
def bitF (m : ZMod p) (j : Nat) : ZMod p := (((m.val / 2 ^ j) % 2 : Nat) : ZMod p)

/-- Closed form of the `g_evals` loop of `prove_n_bits` (rangeproof.rs
162-166): the loop `g_evals[n-1] = b_{n-1}; g_evals[i] = 2·g_evals[i+1] + b_i`
yields `g_evals[i] = Σ_{k < n-i} b_{i+k}·2^k`. -/
def gEval (m : ZMod p) (n i : Nat) : ZMod p :=
  ∑ k ∈ Finset.range (n - i), bitF m (i + k) * 2 ^ k

/-- `domain.ifft(&evals)`: the inverse discrete Fourier transform over the
radix-2 domain generated by `ω`, written as the direct inverse-DFT formula
`coeff_j = n⁻¹·Σ_i e_i·ω^{−ij}` (the function ark-poly's in-place algorithm
computes). -/
def idft (n : Nat) (ω : ZMod p) (e : Nat → ZMod p) : List (ZMod p) :=
  (List.range n).map (fun j =>
    (n : ZMod p)⁻¹ * ∑ i ∈ Finset.range n, e i * ω⁻¹ ^ (i * j))

/-- The coefficient scaling that produces `gw_blinded` from `g_blinded`
(rangeproof.rs 174-181): coefficient `i` is multiplied by
`domain_elements[i]` for `i < n` and by `domain_elements[i-n]` for
`n ≤ i < n+3`, i.e. by `ω^(i % n)`; the result is `g_blinded(ωX)` on the
domain.  (For `n < 3` the second loop indexes out of bounds — a guard in
`prove_n_bits` below.) -/
def scaleOmega (n : Nat) (ω : ZMod p) (l : List (ZMod p)) : List (ZMod p) :=
  (List.range l.length).map (fun i => l.getD i 0 * ω ^ (i % n))

/-- All inputs of a `prove_n_bits` run: the bit width, the KZG trapdoor
dlogs `β, γ`, the domain generator `ω`, the Pedersen opening, the four
random blinding polynomials sampled from the RNG (`blinding_poly` of
degree 2 and the commitment randomness of `com_f`/`com_g`/`com_q`), the two
Fiat-Shamir hashes of the Merlin transcript, the hash and blinding supply of
the DLEQ sub-proof, and the two batch-check randomizers used by the
verifier. -/
structure RangeEnv (p : Nat) where
  n : Nat
  beta : ZMod p
  gamma : ZMod p
  omg : ZMod p
  ped : PedersenOpening (ZMod p)
  bg : List (ZMod p)
  phi_f : List (ZMod p)
  phi_g : List (ZMod p)
  phi_q : List (ZMod p)
  hashC : List (ZMod p) → ZMod p
  hashRho : List (ZMod p) → ZMod p
  dloghash : List (TEntry (ZMod p)) → ZMod p
  rsup : Nat → Nat → ZMod p
  u1 : ZMod p
  u2 : ZMod p

/-- `g`: the interpolation (ifft) of the `g_evals` vector. -/
def rpG (E : RangeEnv p) : List (ZMod p) := idft E.n E.omg (gEval E.ped.m E.n)

/-- `g_blinded = g + (X^n − 1)·blinding_poly` (rangeproof.rs 169-172). -/
def rpGB (E : RangeEnv p) : List (ZMod p) := addP (rpG E) (mulVan E.n E.bg)

/-- `gw_blinded` (rangeproof.rs 174-181). -/
def rpGWB (E : RangeEnv p) : List (ZMod p) := scaleOmega E.n E.omg (rpGB E)

/-- `q1 = (g_blinded − f)/(X − 1)` (rangeproof.rs 184-188). -/
def rpQ1 (E : RangeEnv p) : List (ZMod p) := divLin (subP (rpGB E) [E.ped.m]) 1

/-- `q2 = g·(1 − g)/(X − ω^{n-1})` (rangeproof.rs 191-196). -/
def rpQ2 (E : RangeEnv p) : List (ZMod p) :=
  divLin (mulP (rpGB E) (subP [1] (rpGB E))) (E.omg ^ (E.n - 1))

/-- `w3 = (g − 2gw)·(1 − g + 2gw)·(X − ω^{n-1})` (rangeproof.rs 199-210). -/
def rpW3 (E : RangeEnv p) : List (ZMod p) :=
  mulP (mulP (subP (rpGB E) (smulP 2 (rpGWB E)))
      (subP [1] (subP (rpGB E) (smulP 2 (rpGWB E)))))
    [-(E.omg ^ (E.n - 1)), 1]

/-- `q3`: the quotient of `w3` by the vanishing polynomial
(rangeproof.rs 211). -/
def rpQ3 (E : RangeEnv p) : List (ZMod p) := (divVan E.n (rpW3 E)).1

/-- `com_f`: hiding commitment to the constant polynomial `f = [m]`. -/
def rpComF (E : RangeEnv p) : ZMod p := KZGcommit E.beta E.gamma [E.ped.m] E.phi_f

/-- `com_g`: hiding commitment to `g_blinded`. -/
def rpComG (E : RangeEnv p) : ZMod p := KZGcommit E.beta E.gamma (rpGB E) E.phi_g

/-- The first Fiat-Shamir challenge `c`, hashed after `com_f` and `com_g`
are added to the transcript (rangeproof.rs 250-257). -/
def rpC (E : RangeEnv p) : ZMod p := E.hashC [rpComF E, rpComG E]

/-- `q = q1 + c·q2 + c²·q3` (rangeproof.rs 260-266). -/
def rpQ (E : RangeEnv p) : List (ZMod p) :=
  addP (addP (rpQ1 E) (smulP (rpC E) (rpQ2 E))) (smulP (rpC E * rpC E) (rpQ3 E))

/-- `com_q`: hiding commitment to `q`. -/
def rpComQ (E : RangeEnv p) : ZMod p := KZGcommit E.beta E.gamma (rpQ E) E.phi_q

/-- The second Fiat-Shamir challenge `ρ`, hashed after `com_q` is added
(rangeproof.rs 270-274). -/
def rpRho (E : RangeEnv p) : ZMod p := E.hashRho [rpComF E, rpComG E, rpComQ E]

/-- `w_hat = f·(ρⁿ−1)/(ρ−1) + q·(ρⁿ−1)` (rangeproof.rs 291-301). -/
def rpWhat (E : RangeEnv p) : List (ZMod p) :=
  addP (smulP ((rpRho E ^ E.n - 1) / (rpRho E - 1)) [E.ped.m])
    (smulP (rpRho E ^ E.n - 1) (rpQ E))

/-- The blinding polynomial of `w_hat`: the same combination of the
blindings of `f` and `q` (rangeproof.rs 303-319). -/
def rpWhatRand (E : RangeEnv p) : List (ZMod p) :=
  addP (smulP ((rpRho E ^ E.n - 1) / (rpRho E - 1)) E.phi_f)
    (smulP (rpRho E ^ E.n - 1) E.phi_q)

/-- The DLEQ sub-proof linking `com_f` to the Pedersen opening
(rangeproof.rs 231-245): two statements `[ped.c, com_f]` over bases
`[ped.bases, com_f_basis]` with scalars `[[m, r], φ_f ++ [m]]` and equality
constraint `(0, 3)`. -/
def rpDleq (E : RangeEnv p) : Option (DLogPoK (ZMod p)) :=
  DLogPoK.prove E.dloghash [] [E.ped.c, rpComF E]
    [E.ped.bases, com_f_basis E.beta E.gamma]
    [[E.ped.m, E.ped.r], E.phi_f ++ [E.ped.m]] (some [(0, 3)]) E.rsup

/-- Embedding of `RangeProof::prove_n_bits` (rangeproof.rs 114-339).  `none`
models a panic: the `assert!(n.is_power_of_two())`, the
`domain_elements[i - n]` indexing (out of bounds when `n < 3`), and the
panics of the DLEQ `DLogPoK::prove`.  (The SRS-length assert and the
`unwrap`s on `KZG10::commit` concern setup adequacy and are elided, and
coefficient lists are not length-trimmed: the probability-zero RNG draws
whose trimmed blinding polynomials would make the Rust `coeffs[i]` writes
panic are ignored.)  `rpProof` is the proof record assembled on the success
path (rangeproof.rs 327-338). -/
def rpProof (E : RangeEnv p) (dl : DLogPoK (ZMod p)) : RangeProof (ZMod p) :=
  { com_f := rpComF E
    com_g := rpComG E
    eval_g := evalP (rpGB E) (rpRho E)
    proof_g := KZGopen E.beta E.gamma (rpGB E) E.phi_g (rpRho E)
    eval_gw := evalP (rpGB E) (rpRho E * E.omg)
    proof_gw := KZGopen E.beta E.gamma (rpGB E) E.phi_g (rpRho E * E.omg)
    com_q := rpComQ E
    eval_w_hat := evalP (rpWhat E) (rpRho E)
    proof_w_hat := KZGopen E.beta E.gamma (rpWhat E) (rpWhatRand E) (rpRho E)
    dleq_proof := dl }

def prove_n_bits (E : RangeEnv p) : Option (RangeProof (ZMod p)) :=
  if ¬ is_power_of_two E.n then none
  else if E.n < 3 then none
  else (rpDleq E).map (rpProof E)

/-- `KZG10::batch_check` (the ark kzg10 implementation) in discrete-log
form, for the three openings of `verify_n_bits`, with randomizers
`1, u1, u2`: the pairing comparison
`e(total_w, β·h) = e(total_c, h)` is the exponent equation
`Σ uᵢ(Cᵢ + zᵢwᵢ) − Σ uᵢvᵢ − γ·Σ uᵢ rvᵢ = β·Σ uᵢwᵢ`. -/
def kzg_batch_check (β γ : ZMod p) (u1 u2 : ZMod p)
    (c1 z1 v1 : ZMod p) (w1 : ZMod p × ZMod p)
    (c2 z2 v2 : ZMod p) (w2 : ZMod p × ZMod p)
    (c3 z3 v3 : ZMod p) (w3 : ZMod p × ZMod p) : Bool :=
  decide ((c1 + z1 * w1.1) + u1 * (c2 + z2 * w2.1) + u2 * (c3 + z3 * w3.1)
    - (v1 + u1 * v2 + u2 * v3) - γ * (w1.2 + u1 * w2.2 + u2 * w3.2)
    = β * (w1.1 + u1 * w2.1 + u2 * w3.1))

/-- The challenge `c` as the verifier rederives it (rangeproof.rs 352-359). -/
def vC (pf : RangeProof (ZMod p)) (hashC : List (ZMod p) → ZMod p) : ZMod p :=
  hashC [pf.com_f, pf.com_g]

/-- The challenge `ρ` as the verifier rederives it (rangeproof.rs 361-366). -/
def vRho (pf : RangeProof (ZMod p)) (hashRho : List (ZMod p) → ZMod p) : ZMod p :=
  hashRho [pf.com_f, pf.com_g, pf.com_q]

/-- `com_w_hat = com_f·(ρⁿ−1)/(ρ−1) + com_q·(ρⁿ−1)` (rangeproof.rs 369-371). -/
def vComWhat (n : Nat) (pf : RangeProof (ZMod p))
    (hashRho : List (ZMod p) → ZMod p) : ZMod p :=
  pf.com_f * ((vRho pf hashRho ^ n - 1) / (vRho pf hashRho - 1)) +
    pf.com_q * (vRho pf hashRho ^ n - 1)

/-- The verifier's recombined `eval_w = partial_eval_w1 + c·eval_w2 +
c²·eval_w3 − eval_w_hat` (rangeproof.rs 393-407). -/
def vEvalW (n : Nat) (ω : ZMod p) (pf : RangeProof (ZMod p))
    (hashC hashRho : List (ZMod p) → ZMod p) : ZMod p :=
  pf.eval_g * (vRho pf hashRho ^ n - 1) / (vRho pf hashRho - 1) +
    vC pf hashC * (pf.eval_g * (1 - pf.eval_g) * (vRho pf hashRho ^ n - 1) /
      (vRho pf hashRho - ω ^ (n - 1))) +
    vC pf hashC * vC pf hashC * ((pf.eval_g - 2 * pf.eval_gw) *
      (1 - pf.eval_g + 2 * pf.eval_gw) * (vRho pf hashRho - ω ^ (n - 1))) -
    pf.eval_w_hat

/-- Embedding of `RangeProof::verify_n_bits` (rangeproof.rs 342-424):
rederive `c` and `ρ` from the transcript, rebuild `com_w_hat`, batch-check
the three KZG openings, check `eval_w = 0`, then verify the DLEQ proof.
`none` models a panic inside `DLogPoK::verify`; field division is total in
Lean where the Rust `inverse().unwrap()` would panic at `ρ = 1` (excluded
by hypothesis in every theorem below). -/
def verify_n_bits (n : Nat) (β γ ω : ZMod p) (pf : RangeProof (ZMod p))
    (ped_com b0 b1 : ZMod p) (hashC hashRho : List (ZMod p) → ZMod p)
    (dloghash : List (TEntry (ZMod p)) → ZMod p) (u1 u2 : ZMod p) :
    Option Bool :=
  if ¬ kzg_batch_check β γ u1 u2
      pf.com_g (vRho pf hashRho) pf.eval_g pf.proof_g
      pf.com_g (vRho pf hashRho * ω) pf.eval_gw pf.proof_gw
      (vComWhat n pf hashRho) (vRho pf hashRho) pf.eval_w_hat pf.proof_w_hat
  then some false
  else if ¬ (vEvalW n ω pf hashC hashRho = 0) then some false
  else
    pf.dleq_proof.verify dloghash [] [[b0, b1], com_f_basis β γ]
      [ped_com, pf.com_f] (some [(0, 3)])

/-- Concrete in-range witness environment over `ZMod 17`: `n = 4`,
`ω = 4` (a primitive 4th root of unity mod 17), committed value `m = 6 < 16`. -/
def E17a : RangeEnv 17 :=
  { n := 4, beta := 2, gamma := 3, omg := 4
    ped := ⟨[5, 7], 6, 9, 8⟩
    bg := [1, 2, 3], phi_f := [2, 4, 6], phi_g := [1, 1, 2, 3], phi_q := [3, 1, 4]
    hashC := fun _ => 7, hashRho := fun _ => 3, dloghash := fun _ => 2
    rsup := fun _ _ => 1, u1 := 2, u2 := 5 }

/-- Concrete boundary witness environment: committed value `m = 16` with
`m.val = 2^4` exactly. -/
def E17b : RangeEnv 17 :=
  { n := 4, beta := 2, gamma := 3, omg := 4
    ped := ⟨[5, 7], 16, 9, 7⟩
    bg := [1, 2, 3], phi_f := [2, 4, 6], phi_g := [1, 1, 2, 3], phi_q := [3, 1, 4]
    hashC := fun _ => 7, hashRho := fun _ => 3, dloghash := fun _ => 2
    rsup := fun _ _ => 1, u1 := 2, u2 := 5 }

end RangeC5

-- =====  further definitions are inserted above this line  =====

-- =====  proofs  =====

section C3Aux

lemma val_shift_expired (curTime : ZMod bn254_r) (d : Nat) (hd : 0 < d)
    (hdr : d < bn254_r) :
    ((curTime - (d : ZMod bn254_r)) - curTime).val = bn254_r - d := by
  have h1 : (curTime - (d : ZMod bn254_r)) - curTime = -(d : ZMod bn254_r) := by
    ring
  have hv : ((d : Nat) : ZMod bn254_r).val = d := ZMod.val_cast_of_lt hdr
  have hne : ((d : Nat) : ZMod bn254_r) ≠ 0 := by
    intro h
    rw [h, ZMod.val_zero] at hv
    omega
  rw [h1, ZMod.neg_val, if_neg hne, hv]

lemma expiration_expired_panics (curTime : ZMod bn254_r) (d : Nat) (hd : 0 < d)
    (hdb : d ≤ bn254_r - 2 ^ 32) :
    create_show_proof_expiration (curTime - d) curTime = .error .panic := by
  have hbig : 2 ^ 32 < bn254_r := by norm_num [bn254_r]
  have hdr : d < bn254_r := by omega
  have hval := val_shift_expired curTime d hd hdr
  unfold create_show_proof_expiration show_range RANGE_PROOF_INTERVAL_BITS
  rw [if_neg]
  rintro ⟨-, hlt⟩
  rw [hval] at hlt
  omega

end C3Aux

section C10Aux

lemma idxOf_length (l : List PublicIOType) (t : PublicIOType) :
    (idxOf l t).length = l.countP (fun x => decide (x = t)) := by
  unfold idxOf
  rw [← List.countP_eq_length_filter]
  induction l with
  | nil => rfl
  | cons a xs ih =>
      rw [List.length_cons, List.range_succ_eq_map, List.countP_cons,
        List.countP_cons, List.countP_map]
      have hcomp : ((fun i => decide ((a :: xs).getD i .Revealed = t)) ∘ Nat.succ) =
          (fun i => decide (xs.getD i .Revealed = t)) := rfl
      rw [hcomp, ih]
      rfl

lemma countP_set_le (l : List PublicIOType) (i : Nat) (x : PublicIOType)
    (p : PublicIOType → Bool) :
    (l.set i x).countP p ≤ l.countP p + (if p x then 1 else 0) := by
  induction l generalizing i with
  | nil => simp
  | cons a xs ih =>
      cases i with
      | zero =>
          simp only [List.set_cons_zero, List.countP_cons]
          split_ifs <;> omega
      | succ n =>
          simp only [List.set_cons_succ, List.countP_cons]
          have := ih n
          split_ifs at this ⊢ <;> omega

lemma foldl_set_committed_le (pC : PublicIOType → Bool) (f : Nat → Nat) :
    ∀ (locs : List Nat) (l : List PublicIOType),
    (locs.foldl (fun t loc => t.set (f loc) .Committed) l).countP pC ≤
      l.countP pC + locs.length
  | [], l => by simp
  | loc :: rest, l => by
      rw [List.foldl_cons, List.length_cons]
      calc (rest.foldl (fun t loc => t.set (f loc) .Committed)
              (l.set (f loc) .Committed)).countP pC ≤
            (l.set (f loc) .Committed).countP pC + rest.length :=
              foldl_set_committed_le pC f rest _
        _ ≤ l.countP pC + (if pC .Committed then 1 else 0) + rest.length := by
              have := countP_set_le l (f loc) .Committed pC
              omega
        _ ≤ l.countP pC + (rest.length + 1) := by split_ifs <;> omega

lemma foldl_set_revealed_le (pC : PublicIOType → Bool) (hpC : pC .Revealed = false)
    (f : Nat → Nat) :
    ∀ (locs : List Nat) (l : List PublicIOType),
    (locs.foldl (fun t loc => t.set (f loc) .Revealed) l).countP pC ≤ l.countP pC
  | [], l => le_refl _
  | loc :: rest, l => by
      rw [List.foldl_cons]
      calc (rest.foldl (fun t loc => t.set (f loc) .Revealed)
              (l.set (f loc) .Revealed)).countP pC ≤
            (l.set (f loc) .Revealed).countP pC :=
              foldl_set_revealed_le pC hpC f rest _
        _ ≤ l.countP pC := by
              have := countP_set_le l (f loc) .Revealed pC
              rw [hpC] at this
              simpa using this

lemma mdl_io_types_committed_le (inputsLen validUntilPos : Nat)
    (rangeLocs pubKeyIdx revealedLocs hashedLocs : List Nat) (dk0 dk1 : Nat) :
    (idxOf (mdl_io_types inputsLen validUntilPos rangeLocs pubKeyIdx revealedLocs
      hashedLocs false dk0 dk1) .Committed).length ≤ 1 + rangeLocs.length := by
  rw [idxOf_length]
  simp only [mdl_io_types, if_neg (by simp : ¬ (false : Bool) = true)]
  set pC : PublicIOType → Bool := fun x => decide (x = PublicIOType.Committed) with hpC
  calc (hashedLocs.foldl (fun t loc => t.set (loc - 1) .Revealed)
          (revealedLocs.foldl (fun t loc => t.set (loc - 1) .Revealed)
            (pubKeyIdx.foldl (fun t i => t.set i .Revealed)
              (rangeLocs.foldl (fun t loc => t.set (loc - 1) .Committed)
                ((List.replicate inputsLen PublicIOType.Hidden).set
                  (validUntilPos - 1) .Committed))))).countP pC ≤
        (revealedLocs.foldl (fun t loc => t.set (loc - 1) .Revealed)
          (pubKeyIdx.foldl (fun t i => t.set i .Revealed)
            (rangeLocs.foldl (fun t loc => t.set (loc - 1) .Committed)
              ((List.replicate inputsLen PublicIOType.Hidden).set
                (validUntilPos - 1) .Committed)))).countP pC :=
          foldl_set_revealed_le pC rfl (fun x => x - 1) hashedLocs _
    _ ≤ (pubKeyIdx.foldl (fun t i => t.set i .Revealed)
          (rangeLocs.foldl (fun t loc => t.set (loc - 1) .Committed)
            ((List.replicate inputsLen PublicIOType.Hidden).set
              (validUntilPos - 1) .Committed))).countP pC :=
          foldl_set_revealed_le pC rfl (fun x => x - 1) revealedLocs _
    _ ≤ (rangeLocs.foldl (fun t loc => t.set (loc - 1) .Committed)
          ((List.replicate inputsLen PublicIOType.Hidden).set
            (validUntilPos - 1) .Committed)).countP pC :=
          foldl_set_revealed_le pC rfl (fun x => x) pubKeyIdx _
    _ ≤ ((List.replicate inputsLen PublicIOType.Hidden).set
            (validUntilPos - 1) .Committed).countP pC + rangeLocs.length :=
          foldl_set_committed_le pC (fun x => x - 1) rangeLocs _
    _ ≤ (List.replicate inputsLen PublicIOType.Hidden).countP pC + 1 +
          rangeLocs.length := by
          have := countP_set_le (List.replicate inputsLen PublicIOType.Hidden)
            (validUntilPos - 1) .Committed pC
          simp only [hpC] at this ⊢
          split_ifs at this <;> omega
    _ ≤ 1 + rangeLocs.length := by
          have hz : (List.replicate inputsLen PublicIOType.Hidden).countP pC = 0 := by
            apply List.countP_eq_zero.mpr
            intro x hx
            rw [List.eq_of_mem_replicate hx]
            simp [hpC]
          omega

lemma mdl_ranges_oob : ∀ (ages : List (ZMod bn254_r))
    (openings : List (PedersenOpening (ZMod bn254_r))) (idx : Nat),
    0 < ages.length → openings.length < idx + ages.length →
    create_show_proof_mdl_ranges openings ages idx = .error .panic
  | [], _, _, h, _ => by simp at h
  | a :: rest, openings, idx, _, hlen => by
      unfold create_show_proof_mdl_ranges
      rcases hg : openings.get? idx with _ | o
      · rfl
      · have hidx : idx < openings.length := by
          by_contra hc
          rw [List.get?_eq_none.mpr (by omega)] at hg
          cases hg
        simp only
        rcases hs : show_range (o.m - a) RANGE_PROOF_INTERVAL_BITS with p | u
        · rfl
        · have hrest : 0 < rest.length := by
            simp only [List.length_cons] at hlen
            omega
          rw [mdl_ranges_oob rest openings (idx + 1) hrest
            (by simp only [List.length_cons] at hlen; omega)]

end C10Aux

section C8Aux

lemma ymd_to_ordinal_some {y m d t : Nat} (h : ymd_to_ordinal y m d = some t) :
    (1 ≤ m ∧ m ≤ 12) ∧ 1 ≤ d ∧
    t = days_before_year y + (DAYS_BEFORE_MONTH.getD m 0 +
      (if m > 2 && is_leap y then 1 else 0)) + d := by
  unfold ymd_to_ordinal days_in_month days_before_month at h
  repeat'
    first
      | split_ifs at h
      | rw [Option.some_bind] at h
  all_goals simp_all
  all_goals
    rw [if_neg (by rintro ⟨hm, hl⟩ ; simp_all)]
    omega

lemma days_before_year_succ (y : Nat) (hy : 1 ≤ y) :
    days_before_year y + 365 ≤ days_before_year (y + 1) := by
  unfold days_before_year
  simp only [Nat.add_sub_cancel]
  have h4 : (y - 1) / 4 ≤ y / 4 := Nat.div_le_div_right (Nat.sub_le y 1)
  have h100 : (y - 1) / 100 ≤ y / 100 := Nat.div_le_div_right (Nat.sub_le y 1)
  have h400 : (y - 1) / 400 ≤ y / 400 := Nat.div_le_div_right (Nat.sub_le y 1)
  have hmul : (y - 1) * 365 + 365 = y * 365 := by
    cases y with
    | zero => omega
    | succ n => simp [Nat.succ_sub_one, Nat.succ_mul]
  omega

lemma ymd_strict_mono {y m d t u : Nat} (hy : 1 ≤ y)
    (ht : ymd_to_ordinal y m d = some t)
    (hu : ymd_to_ordinal (y + 1) m d = some u) :
    t < u := by
  obtain ⟨-, -, htv⟩ := ymd_to_ordinal_some ht
  obtain ⟨-, -, huv⟩ := ymd_to_ordinal_some hu
  have hdby := days_before_year_succ y hy
  have he1 : (if m > 2 && is_leap y then (1:Nat) else 0) ≤ 1 := by
    split_ifs <;> omega
  have he2 : (0:Nat) ≤ (if m > 2 && is_leap (y + 1) then (1:Nat) else 0) :=
    Nat.zero_le _
  omega

lemma days_to_be_age_some {Y M D a v : Nat} (h : days_to_be_age Y M D a = some v) :
    ∃ ts ps, ymd_to_ordinal Y M D = some ts ∧
      ymd_to_ordinal (Y - a) M (if M == 2 && D == 29 then 28 else D) = some ps ∧
      ps < ts ∧ v = ts - ps := by
  unfold days_to_be_age at h
  rcases h1 : ymd_to_ordinal Y M D with _ | ts
  · rw [h1] at h; exact absurd h (by simp)
  · simp only [h1, Option.some_bind] at h
    rcases h2 : ymd_to_ordinal (Y - a) M (if M == 2 && D == 29 then 28 else D)
      with _ | ps
    · rw [h2] at h; exact absurd h (by simp)
    · simp only [h2, Option.some_bind] at h
      split_ifs at h with h3
      exact ⟨ts, ps, rfl, rfl, h3, (Option.some.inj h).symm⟩

end C8Aux

namespace ListAux

lemma getD_cons_zero {α : Type _} (a : α) (l : List α) (d : α) :
    (a :: l).getD 0 d = a := rfl

lemma getD_cons_succ {α : Type _} (a : α) (l : List α) (i : Nat) (d : α) :
    (a :: l).getD (i + 1) d = l.getD i d := rfl

lemma getD_nil {α : Type _} (i : Nat) (d : α) : ([] : List α).getD i d = d := rfl

lemma getD_map {α β : Type _} (f : α → β) :
    ∀ (l : List α) (i : Nat) (d : α) (d' : β), i < l.length →
      (l.map f).getD i d' = f (l.getD i d)
  | a :: l, 0, _, _, _ => rfl
  | a :: l, i + 1, d, d', h =>
      getD_map f l i d d' (by simpa using Nat.lt_of_succ_lt_succ h)

lemma getD_range : ∀ (n i : Nat), i < n → (List.range n).getD i 0 = i := by
  intro n i h
  rw [List.getD_eq_getElem?_getD, List.getElem?_range h]
  rfl

lemma getD_zipWith {α β γ : Type _} (f : α → β → γ) :
    ∀ (l1 : List α) (l2 : List β) (i : Nat) (d1 : α) (d2 : β) (d3 : γ),
      i < l1.length → i < l2.length →
      (List.zipWith f l1 l2).getD i d3 = f (l1.getD i d1) (l2.getD i d2)
  | _ :: _, _ :: _, 0, _, _, _, _, _ => rfl
  | a :: l1, b :: l2, i + 1, d1, d2, d3, h1, h2 =>
      getD_zipWith f l1 l2 i d1 d2 d3 (by simpa using Nat.lt_of_succ_lt_succ h1)
        (by simpa using Nat.lt_of_succ_lt_succ h2)

lemma set_of_length_le {α : Type _} :
    ∀ (l : List α) (i : Nat) (a : α), l.length ≤ i → l.set i a = l
  | [], _, _, _ => rfl
  | _ :: _, 0, _, h => absurd h (by simp)
  | x :: l, i + 1, a, h => by
      simpa using set_of_length_le l i a (by simpa using Nat.le_of_succ_le_succ h)

lemma getD_set_ne {α : Type _} :
    ∀ (l : List α) (i j : Nat) (a d : α), i ≠ j → (l.set i a).getD j d = l.getD j d
  | [], _, _, _, _, _ => rfl
  | _ :: _, 0, 0, _, _, h => absurd rfl h
  | x :: l, 0, j + 1, a, d, _ => rfl
  | x :: l, i + 1, 0, a, d, _ => rfl
  | x :: l, i + 1, j + 1, a, d, h =>
      getD_set_ne l i j a d (fun hc => h (by simp [hc]))

lemma getD_set_eq {α : Type _} :
    ∀ (l : List α) (i : Nat) (a d : α), i < l.length → (l.set i a).getD i d = a
  | [], i, _, _, h => absurd h (by simp)
  | x :: l, 0, _, _, _ => rfl
  | x :: l, i + 1, a, d, h =>
      getD_set_eq l i a d (by simpa using Nat.lt_of_succ_lt_succ h)

lemma getD_append_left {α : Type _} :
    ∀ (l1 l2 : List α) (i : Nat) (d : α), i < l1.length →
      (l1 ++ l2).getD i d = l1.getD i d
  | [], _, _, _, h => absurd h (by simp)
  | a :: l1, l2, 0, _, _ => rfl
  | a :: l1, l2, i + 1, d, h =>
      getD_append_left l1 l2 i d (by simpa using Nat.lt_of_succ_lt_succ h)

lemma getD_append_right_first {α : Type _} :
    ∀ (l1 l2 : List α) (d : α), (l1 ++ l2).getD l1.length d = l2.getD 0 d
  | [], _, _ => rfl
  | _ :: l1, l2, d => getD_append_right_first l1 l2 d

end ListAux

namespace DLogPoK

open ListAux

variable {F : Type} [Field F] [DecidableEq F]

lemma msm_sub (c : F) :
    ∀ (b r x : List F), b.length = r.length → b.length ≤ x.length →
      msm_select b (List.zipWith (fun rj xj => rj - c * xj) r x) =
        msm_select b r - c * msm_select b x
  | [], [], _, _, _ => by cases ‹List F› <;> simp [msm_select]
  | [], _ :: _, _, h, _ => by simp at h
  | _ :: _, [], _, h, _ => by simp at h
  | _ :: _, _ :: _, [], _, h => by simp at h
  | b :: bs, r :: rs, x :: xs, h, h' => by
      have ih := msm_sub c bs rs xs (by simpa using h) (by simpa using h')
      simp only [List.zipWith_cons_cons, msm_select, List.sum_cons] at ih ⊢
      linear_combination ih

lemma freshR_length (n : Nat) (bases : List (List F)) (rsup : Nat → Nat → F) :
    (freshR n bases rsup).length = n := by simp [freshR]

lemma freshR_getD {n i : Nat} (bases : List (List F)) (rsup : Nat → Nat → F)
    (h : i < n) :
    (freshR n bases rsup).getD i [] =
      (List.range (bases.getD i []).length).map (fun j => rsup i j) := by
  unfold freshR
  rw [getD_map _ (List.range n) i 0 [] (by simpa using h), getD_range n i h]

lemma freshR_row_length {n i : Nat} (bases : List (List F)) (rsup : Nat → Nat → F)
    (h : i < n) :
    ((freshR n bases rsup).getD i []).length = (bases.getD i []).length := by
  rw [freshR_getD bases rsup h]; simp

lemma eqOverwrite_length :
    ∀ (l : List (Nat × Nat)) (r : List (List F)), (eqOverwrite r l).length = r.length
  | [], _ => rfl
  | p :: l, r => by
      rw [show eqOverwrite r (p :: l) = eqOverwrite (r.set 1 ((r.getD 1 []).set p.2
        ((r.getD 0 []).getD p.1 0))) l from rfl, eqOverwrite_length l]
      simp

lemma eqOverwrite_getD_ne_one {i : Nat} (hi : i ≠ 1) :
    ∀ (l : List (Nat × Nat)) (r : List (List F)),
      (eqOverwrite r l).getD i [] = r.getD i []
  | [], _ => rfl
  | p :: l, r => by
      rw [show eqOverwrite r (p :: l) = eqOverwrite (r.set 1 ((r.getD 1 []).set p.2
        ((r.getD 0 []).getD p.1 0))) l from rfl, eqOverwrite_getD_ne_one hi l,
        getD_set_ne _ _ _ _ _ (fun hc => hi hc.symm)]

lemma getD_set_one_row_length (r : List (List F)) (x : List F) :
    ((r.set 1 x).getD 1 []).length = if 1 < r.length then x.length
      else ((r.getD 1 []).length) := by
  by_cases h : 1 < r.length
  · rw [getD_set_eq _ _ _ _ (by simpa using h)]; simp [h]
  · rw [set_of_length_le _ _ _ (by omega)]; simp [h]

lemma eqOverwrite_row_length :
    ∀ (l : List (Nat × Nat)) (r : List (List F)) (i : Nat),
      ((eqOverwrite r l).getD i []).length = (r.getD i []).length
  | [], _, _ => rfl
  | p :: l, r, i => by
      rw [show eqOverwrite r (p :: l) = eqOverwrite (r.set 1 ((r.getD 1 []).set p.2
        ((r.getD 0 []).getD p.1 0))) l from rfl, eqOverwrite_row_length l]
      by_cases hi : i = 1
      · subst hi
        rw [getD_set_one_row_length]
        by_cases h : 1 < r.length <;> simp [h]
      · rw [getD_set_ne _ _ _ _ _ (fun hc => hi hc.symm)]

lemma eqOverwrite_row1_untouched {j : Nat} :
    ∀ (l : List (Nat × Nat)) (r : List (List F)), (∀ p ∈ l, p.2 ≠ j) →
      ((eqOverwrite r l).getD 1 []).getD j 0 = (r.getD 1 []).getD j 0
  | [], _, _ => rfl
  | p :: l, r, h => by
      rw [show eqOverwrite r (p :: l) = eqOverwrite (r.set 1 ((r.getD 1 []).set p.2
        ((r.getD 0 []).getD p.1 0))) l from rfl,
        eqOverwrite_row1_untouched l _ (fun q hq => h q (List.mem_cons_of_mem _ hq))]
      by_cases h1 : 1 < r.length
      · rw [getD_set_eq _ _ _ _ (by simpa using h1),
          getD_set_ne _ _ _ _ _ (h p (List.mem_cons_self _ _))]
      · rw [set_of_length_le _ _ _ (by omega)]

lemma eqOverwrite_row1 :
    ∀ (l : List (Nat × Nat)) (r : List (List F)), 1 < r.length →
      l.Pairwise (fun p q => p.2 ≠ q.2) →
      (∀ p ∈ l, p.2 < (r.getD 1 []).length) →
      ∀ p ∈ l, ((eqOverwrite r l).getD 1 []).getD p.2 0 = (r.getD 0 []).getD p.1 0
  | [], _, _, _, _ => by intro p hp; cases hp
  | q :: l, r, h2, hpw, hbd => by
      intro p hp
      have hstep : eqOverwrite r (q :: l) = eqOverwrite (r.set 1 ((r.getD 1 []).set q.2
        ((r.getD 0 []).getD q.1 0))) l := rfl
      have hlen : 1 < (r.set 1 ((r.getD 1 []).set q.2 ((r.getD 0 []).getD q.1 0))).length := by
        simpa using h2
      have hrow1 : ((r.set 1 ((r.getD 1 []).set q.2 ((r.getD 0 []).getD q.1 0))).getD 1 []) =
          (r.getD 1 []).set q.2 ((r.getD 0 []).getD q.1 0) :=
        getD_set_eq _ _ _ _ (by simpa using h2)
      have hrow0 : ((r.set 1 ((r.getD 1 []).set q.2 ((r.getD 0 []).getD q.1 0))).getD 0 []) =
          r.getD 0 [] := getD_set_ne _ _ _ _ _ (by omega)
      rcases List.mem_cons.mp hp with hq | hmem
      · subst hq
        rw [hstep, eqOverwrite_row1_untouched l _
            (fun q' hq' => ((List.pairwise_cons.mp hpw).1 q' hq').symm),
          hrow1, getD_set_eq _ _ _ _ (hbd p (List.mem_cons_self _ _))]
      · rw [hstep, eqOverwrite_row1 l _ hlen (List.pairwise_cons.mp hpw).2
            (fun p' hp' => by
              rw [hrow1]
              simpa using hbd p' (List.mem_cons_of_mem _ hp')) p hmem, hrow0]

lemma proveR_length (n : Nat) (bases : List (List F))
    (eqPos : Option (List (Nat × Nat))) (rsup : Nat → Nat → F) :
    (proveR n bases eqPos rsup).length = n := by
  cases eqPos with
  | none => simpa [proveR] using freshR_length n bases rsup
  | some l => simp [proveR, eqOverwrite_length, freshR_length]

lemma proveR_row_length {n i : Nat} (bases : List (List F))
    (eqPos : Option (List (Nat × Nat))) (rsup : Nat → Nat → F) (h : i < n) :
    ((proveR n bases eqPos rsup).getD i []).length = (bases.getD i []).length := by
  cases eqPos with
  | none => simpa [proveR] using freshR_row_length bases rsup h
  | some l =>
      show ((eqOverwrite (freshR n bases rsup) l).getD i []).length = _
      rw [eqOverwrite_row_length, freshR_row_length bases rsup h]

/-- On its success path, `prove` returns exactly `proveResult`.  The
hypotheses are the panic guards of dlog.rs: matching list lengths, at most
two statements when `eq_pos` is given, and in-range equality positions. -/
lemma prove_eq_some (hash : List (TEntry F) → F) (context : List Nat)
    (y : List F) (bases scalars : List (List F))
    (eqPos : Option (List (Nat × Nat))) (rsup : Nat → Nat → F)
    (hyb : y.length = bases.length)
    (hbs : bases.length = scalars.length)
    (hrow : ∀ i, i < y.length → (bases.getD i []).length ≤ (scalars.getD i []).length)
    (heq : ∀ l, eqPos = some l → y.length = 2 ∧
        ∀ p ∈ l, p.1 < (bases.getD 0 []).length ∧ p.2 < (bases.getD 1 []).length) :
    prove hash context y bases scalars eqPos rsup =
      some (proveResult hash context y bases scalars eqPos rsup) := by
  unfold prove
  rw [if_pos hyb, if_pos hbs, if_pos, if_pos]
  · simp only [List.all_eq_true, Bool.and_eq_true, decide_eq_true_eq]
    intro i hi
    exact hrow i (List.mem_range.mp hi)
  · cases heqPos : eqPos with
    | none => simp
    | some l =>
        obtain ⟨h2, hb⟩ := heq l heqPos
        simp only [List.all_eq_true, Bool.and_eq_true, decide_eq_true_eq]
        refine ⟨h2, fun p hp => ?_⟩
        rw [freshR_row_length bases rsup (by omega), freshR_row_length bases rsup (by omega)]
        exact hb p hp

/-- Honest-verifier completeness core: the proof produced by `proveResult`
is accepted by `verify` whenever each statement satisfies
`y_i = Σ_j bases[i][j]·scalars[i][j]`, the shapes match, and the equality
positions (when given) are in range, name pairwise-distinct targets and
relate genuinely equal scalars. -/
lemma verify_proveResult (hash : List (TEntry F) → F) (context : List Nat)
    (y : List F) (bases scalars : List (List F))
    (eqPos : Option (List (Nat × Nat))) (rsup : Nat → Nat → F)
    (hyb : y.length = bases.length)
    (hrow : ∀ i, i < y.length → (scalars.getD i []).length = (bases.getD i []).length)
    (hy : ∀ i, i < y.length → y.getD i 0 = msm_select (bases.getD i []) (scalars.getD i []))
    (heq : ∀ l, eqPos = some l → y.length = 2 ∧ l.Pairwise (fun p q => p.2 ≠ q.2) ∧
        ∀ p ∈ l, p.1 < (bases.getD 0 []).length ∧ p.2 < (bases.getD 1 []).length ∧
          (scalars.getD 0 []).getD p.1 0 = (scalars.getD 1 []).getD p.2 0) :
    verify (proveResult hash context y bases scalars eqPos rsup) hash context bases y eqPos =
      some true := by
  set R : List (List F) := proveR y.length bases eqPos rsup with hR
  set C : F := hash (dlogTranscript context bases (proveKs y.length bases R) y) with hC
  have hpf : proveResult hash context y bases scalars eqPos rsup =
      { c := C
        s := (List.range y.length).map (fun i =>
          List.zipWith (fun rj xj => rj - C * xj) (R.getD i []) (scalars.getD i [])) } := rfl
  set pf : DLogPoK F := proveResult hash context y bases scalars eqPos rsup with hpfd
  have hslen : pf.s.length = y.length := by rw [hpf]; simp
  have hRlen : R.length = y.length := proveR_length _ _ _ _
  have hRrow : ∀ i, i < y.length → ((R.getD i []).length = (bases.getD i []).length) :=
    fun i hi => proveR_row_length bases eqPos rsup hi
  have hsrow : ∀ i, i < y.length → pf.s.getD i [] =
      List.zipWith (fun rj xj => rj - C * xj) (R.getD i []) (scalars.getD i []) := by
    intro i hi
    rw [hpf]
    show ((List.range y.length).map _).getD i [] = _
    rw [ListAux.getD_map _ (List.range y.length) i 0 [] (by simpa using hi),
      ListAux.getD_range _ _ hi]
  have hsrowlen : ∀ i, i < y.length → (pf.s.getD i []).length = (bases.getD i []).length := by
    intro i hi
    rw [hsrow i hi, List.length_zipWith, hRrow i hi, hrow i hi, Nat.min_self]
  have hkseq : verifyKs pf bases y = proveKs y.length bases R := by
    unfold verifyKs proveKs
    refine List.map_congr_left (fun i hi => ?_)
    have hi' : i < y.length := List.mem_range.mp hi
    have hcc : pf.c = C := by rw [hpf]
    rw [hsrow i hi', hcc,
      msm_sub C (bases.getD i []) (R.getD i []) (scalars.getD i [])
        (hRrow i hi').symm (le_of_eq (hrow i hi').symm),
      hy i hi']
    ring
  have hchal : hash (dlogTranscript context bases (verifyKs pf bases y) y) = pf.c := by
    rw [hkseq, hpf]
  unfold verify
  rw [if_pos (le_of_eq hyb), if_pos (le_of_eq hslen.symm), if_pos]
  · cases heqPos : eqPos with
    | none => simp [hchal]
    | some l =>
        obtain ⟨h2, hpw, hb⟩ := heq l heqPos
        dsimp only
        rw [if_pos h2, if_pos, if_pos]
        · simp [hchal]
        · -- the equality checks `s[0][i] == s[1][j]` all pass
          simp only [List.all_eq_true, decide_eq_true_eq]
          intro p hp
          obtain ⟨hb1, hb2, hxeq⟩ := hb p hp
          have h0 : (0 : Nat) < y.length := by omega
          have h1 : (1 : Nat) < y.length := by omega
          have hfresh : R = eqOverwrite (freshR y.length bases rsup) l := by
            rw [hR, heqPos]; rfl
          have hR0 : R.getD 0 [] = (freshR y.length bases rsup).getD 0 [] := by
            rw [hfresh, eqOverwrite_getD_ne_one (by omega)]
          have hR1v : (R.getD 1 []).getD p.2 0 =
              ((freshR y.length bases rsup).getD 0 []).getD p.1 0 := by
            rw [hfresh]
            exact eqOverwrite_row1 l _ (by rw [freshR_length]; omega) hpw
              (fun q hq => by
                rw [freshR_row_length bases rsup h1]
                exact (hb q hq).2.1) p hp
          rw [hsrow 0 h0, hsrow 1 h1,
            ListAux.getD_zipWith _ _ _ _ 0 0 0 (by rw [hRrow 0 h0]; exact hb1)
              (by rw [hrow 0 h0]; exact hb1),
            ListAux.getD_zipWith _ _ _ _ 0 0 0 (by rw [hRrow 1 h1]; exact hb2)
              (by rw [hrow 1 h1]; exact hb2),
            hR1v, hR0, hxeq]
        · simp only [List.all_eq_true, Bool.and_eq_true, decide_eq_true_eq]
          intro p hp
          exact ⟨by rw [hsrowlen 0 (by omega)]; exact (hb p hp).1,
            by rw [hsrowlen 1 (by omega)]; exact (hb p hp).2.1⟩
  · simp only [List.all_eq_true, decide_eq_true_eq]
    intro i hi
    exact (hsrowlen i (List.mem_range.mp hi)).symm

end DLogPoK

section SumLemmas

variable {F : Type} [Field F] [DecidableEq F]

lemma sum_map_add (f g : Nat → F) :
    ∀ l : List Nat, (l.map (fun i => f i + g i)).sum = (l.map f).sum + (l.map g).sum
  | [] => by simp
  | a :: t => by simp [sum_map_add f g t]; ring

lemma sum_map_mul_left (c : F) (f : Nat → F) :
    ∀ l : List Nat, (l.map (fun i => c * f i)).sum = c * (l.map f).sum
  | [] => by simp
  | a :: t => by simp [sum_map_mul_left c f t]; ring

/-- Each index is classified as exactly one of Committed / Hidden / Revealed,
so a sum over all indices splits into the three classes. -/
lemma sum_filter_classify (io : List PublicIOType) (f : Nat → F) :
    ∀ l : List Nat,
      ((l.filter (fun i => io.getD i .Revealed = .Committed)).map f).sum +
      ((l.filter (fun i => io.getD i .Revealed = .Hidden)).map f).sum +
      ((l.filter (fun i => io.getD i .Revealed = .Revealed)).map f).sum
      = (l.map f).sum := by
  intro l
  induction l with
  | nil => simp
  | cons a t ih =>
      cases h : io.getD a .Revealed <;>
        simp only [List.filter_cons, h, decide_eq_true_eq, List.map_cons, List.sum_cons,
          reduceCtorEq, if_true, if_false] <;>
        linear_combination ih

lemma sum_idxOf_classify (io : List PublicIOType) (f : Nat → F) :
    ((idxOf io .Committed).map f).sum + ((idxOf io .Hidden).map f).sum +
      ((idxOf io .Revealed).map f).sum = ((List.range io.length).map f).sum :=
  sum_filter_classify io f (List.range io.length)

lemma msm_append_singleton (l1 l2 : List F) (a b : F) (h : l1.length = l2.length) :
    msm_select (l1 ++ [a]) (l2 ++ [b]) = msm_select l1 l2 + a * b := by
  unfold msm_select
  rw [List.zipWith_append _ _ _ _ _ h]
  simp

lemma msm_map_map (f g : Nat → F) :
    ∀ l : List Nat, msm_select (l.map f) (l.map g) = (l.map (fun i => f i * g i)).sum
  | [] => by simp [msm_select]
  | a :: t => by
      simp only [List.map_cons, msm_select, List.zipWith_cons_cons, List.sum_cons]
      rw [show ((List.zipWith (fun b s => b * s) (t.map f) (t.map g)).sum : F) =
        msm_select (t.map f) (t.map g) from rfl, msm_map_map f g t]

lemma msm_as_range :
    ∀ (l1 l2 : List F), l1.length = l2.length →
      msm_select l1 l2 =
        ((List.range l1.length).map (fun i => l1.getD i 0 * l2.getD i 0)).sum
  | [], [], _ => by simp [msm_select]
  | [], _ :: _, h => by simp at h
  | _ :: _, [], h => by simp at h
  | a :: t1, b :: t2, h => by
      have ih := msm_as_range t1 t2 (by simpa using h)
      unfold msm_select at ih
      simp only [msm_select, List.zipWith_cons_cons, List.sum_cons]
      rw [ih, List.length_cons, List.range_succ_eq_map]
      simp [List.map_map, Function.comp_def, ListAux.getD_cons_zero, ListAux.getD_cons_succ]

lemma getD_drop_one {α : Type _} (l : List α) (i : Nat) (d : α) :
    (l.drop 1).getD i d = l.getD (i + 1) d := by
  cases l <;> rfl

end SumLemmas

section C1Aux

variable {F : Type} [Field F] [DecidableEq F]

/-- A throwaway default opening for total indexing. -/
def opDefault : PedersenOpening F := ⟨[], 0, 0, 0⟩

lemma committedOpenings_length (vk : GrothVK F) (inputs : List F)
    (ioTypes : List PublicIOType) (ρ : Nat → F) :
    (committedOpenings vk inputs ioTypes ρ).length = (idxOf ioTypes .Committed).length := by
  simp [committedOpenings]

lemma showY_length (cs : ClientState F) (ioTypes : List PublicIOType) (ρ : Nat → F) (z : F) :
    (showY cs ioTypes ρ z).length = (idxOf ioTypes .Committed).length + 1 := by
  simp [showY, committedOpenings]

lemma showBases_length (cs : ClientState F) (ioTypes : List PublicIOType) (ρ : Nat → F) :
    (showBases cs ioTypes ρ).length = (idxOf ioTypes .Committed).length + 1 := by
  simp [showBases, committedOpenings]

lemma showScalars_length (cs : ClientState F) (ioTypes : List PublicIOType) (ρ : Nat → F)
    (z : F) :
    (showScalars cs ioTypes ρ z).length = (idxOf ioTypes .Committed).length + 1 := by
  simp [showScalars, committedOpenings]

lemma hiddenBases_length (vk : GrothVK F) (ioTypes : List PublicIOType) :
    (hiddenBases vk ioTypes).length = (idxOf ioTypes .Hidden).length := by
  simp [hiddenBases]

lemma hiddenScalars_length (inputs : List F) (ioTypes : List PublicIOType) :
    (hiddenScalars inputs ioTypes).length = (idxOf ioTypes .Hidden).length := by
  simp [hiddenScalars]

lemma showBases_getD_lt (cs : ClientState F) (ioTypes : List PublicIOType) (ρ : Nat → F)
    {i : Nat} (h : i < (idxOf ioTypes .Committed).length) :
    (showBases cs ioTypes ρ).getD i [] =
      [cs.vk.gammaABC.getD ((idxOf ioTypes .Committed).getD i 0 + 1) 0, cs.vk.delta] := by
  unfold showBases committedOpenings
  rw [ListAux.getD_append_left _ _ _ _ (by simpa using h), List.map_map,
    ListAux.getD_map _ _ i 0 [] (by simpa using h)]
  rfl

lemma showBases_getD_last (cs : ClientState F) (ioTypes : List PublicIOType) (ρ : Nat → F) :
    (showBases cs ioTypes ρ).getD (idxOf ioTypes .Committed).length [] =
      hiddenBases cs.vk ioTypes ++ [cs.vk.delta] := by
  unfold showBases
  rw [show (idxOf ioTypes PublicIOType.Committed).length =
      ((committedOpenings cs.vk cs.inputs ioTypes ρ).map (fun o => o.bases)).length from
      by simp [committedOpenings],
    ListAux.getD_append_right_first]
  rfl

lemma showScalars_getD_lt (cs : ClientState F) (ioTypes : List PublicIOType) (ρ : Nat → F)
    (z : F) {i : Nat} (h : i < (idxOf ioTypes .Committed).length) :
    (showScalars cs ioTypes ρ z).getD i [] =
      [cs.inputs.getD ((idxOf ioTypes .Committed).getD i 0) 0,
        ρ ((idxOf ioTypes .Committed).getD i 0)] := by
  unfold showScalars committedOpenings
  rw [ListAux.getD_append_left _ _ _ _ (by simpa using h), List.map_map,
    ListAux.getD_map _ _ i 0 [] (by simpa using h)]
  rfl

lemma showScalars_getD_last (cs : ClientState F) (ioTypes : List PublicIOType) (ρ : Nat → F)
    (z : F) :
    (showScalars cs ioTypes ρ z).getD (idxOf ioTypes .Committed).length [] =
      hiddenScalars cs.inputs ioTypes ++ [z] := by
  unfold showScalars
  rw [show (idxOf ioTypes PublicIOType.Committed).length =
      ((committedOpenings cs.vk cs.inputs ioTypes ρ).map (fun o => [o.m, o.r])).length from
      by simp [committedOpenings],
    ListAux.getD_append_right_first]
  rfl

lemma showY_getD_lt (cs : ClientState F) (ioTypes : List PublicIOType) (ρ : Nat → F) (z : F)
    {i : Nat} (h : i < (idxOf ioTypes .Committed).length) :
    (showY cs ioTypes ρ z).getD i 0 =
      msm_select [cs.vk.delta, cs.vk.gammaABC.getD ((idxOf ioTypes .Committed).getD i 0 + 1) 0]
        [ρ ((idxOf ioTypes .Committed).getD i 0),
          cs.inputs.getD ((idxOf ioTypes .Committed).getD i 0) 0] := by
  unfold showY committedOpenings
  rw [ListAux.getD_append_left _ _ _ _ (by simpa using h), List.map_map,
    ListAux.getD_map _ _ i 0 0 (by simpa using h)]
  rfl

lemma showY_getD_last (cs : ClientState F) (ioTypes : List PublicIOType) (ρ : Nat → F)
    (z : F) :
    (showY cs ioTypes ρ z).getD (idxOf ioTypes .Committed).length 0 =
      comHidden cs ioTypes z := by
  unfold showY
  rw [show (idxOf ioTypes PublicIOType.Committed).length =
      ((committedOpenings cs.vk cs.inputs ioTypes ρ).map (fun o => o.c)).length from
      by simp [committedOpenings],
    ListAux.getD_append_right_first]
  rfl

/-- The inner `DLogPoK::prove` of an honest `show_groth16` always succeeds:
the statement lists it builds satisfy every panic guard. -/
lemma show_prove_eq (cs : ClientState F) (context : List Nat) (ioTypes : List PublicIOType)
    (ρ : Nat → F) (z : F) (rsup : Nat → Nat → F) (hash : List (TEntry F) → F) :
    DLogPoK.prove hash context (showY cs ioTypes ρ z) (showBases cs ioTypes ρ)
      (showScalars cs ioTypes ρ z) none rsup =
      some (DLogPoK.proveResult hash context (showY cs ioTypes ρ z) (showBases cs ioTypes ρ)
        (showScalars cs ioTypes ρ z) none rsup) := by
  apply DLogPoK.prove_eq_some
  · rw [showY_length, showBases_length]
  · rw [showBases_length, showScalars_length]
  · intro i hi
    rw [showY_length] at hi
    rcases Nat.lt_or_ge i (idxOf ioTypes .Committed).length with hlt | hge
    · rw [showBases_getD_lt cs ioTypes ρ hlt, showScalars_getD_lt cs ioTypes ρ z hlt]
      simp
    · have hieq : i = (idxOf ioTypes .Committed).length := by omega
      subst hieq
      rw [showBases_getD_last, showScalars_getD_last]
      simp [hiddenBases_length, hiddenScalars_length]
  · intro l hl
    exact absurd hl (by simp)

/-- The honest `DLogPoK` of `show_groth16` verifies: each committed statement
opens its Pedersen commitment and the last statement opens `com_hidden`. -/
lemma show_dlog_verifies (cs : ClientState F) (context : List Nat)
    (ioTypes : List PublicIOType) (ρ : Nat → F) (z : F) (rsup : Nat → Nat → F)
    (hash : List (TEntry F) → F) :
    (DLogPoK.proveResult hash context (showY cs ioTypes ρ z) (showBases cs ioTypes ρ)
        (showScalars cs ioTypes ρ z) none rsup).verify hash context
      (showBases cs ioTypes ρ) (showY cs ioTypes ρ z) none = some true := by
  apply DLogPoK.verify_proveResult
  · rw [showY_length, showBases_length]
  · intro i hi
    rw [showY_length] at hi
    rcases Nat.lt_or_ge i (idxOf ioTypes .Committed).length with hlt | hge
    · rw [showBases_getD_lt cs ioTypes ρ hlt, showScalars_getD_lt cs ioTypes ρ z hlt]
      simp
    · have hieq : i = (idxOf ioTypes .Committed).length := by omega
      subst hieq
      rw [showBases_getD_last, showScalars_getD_last]
      simp [hiddenBases_length, hiddenScalars_length]
  · intro i hi
    rw [showY_length] at hi
    rcases Nat.lt_or_ge i (idxOf ioTypes .Committed).length with hlt | hge
    · rw [showY_getD_lt cs ioTypes ρ z hlt, showBases_getD_lt cs ioTypes ρ hlt,
        showScalars_getD_lt cs ioTypes ρ z hlt]
      unfold msm_select
      simp
      try ring
    · have hieq : i = (idxOf ioTypes .Committed).length := by omega
      subst hieq
      rw [showY_getD_last, showBases_getD_last, showScalars_getD_last]
      rfl
  · intro l hl
    exact absurd hl (by simp)

lemma verifyBases_eq_showBases (cs : ClientState F) (ioTypes : List PublicIOType)
    (ρ : Nat → F) :
    verifyBases cs.vk ioTypes = showBases cs ioTypes ρ := by
  unfold verifyBases showBases committedOpenings
  rw [List.map_map]
  rfl

lemma showAccR_eq (cs : ClientState F) (ioTypes : List PublicIOType) (ρ : Nat → F) :
    showAccR cs ioTypes ρ = ((idxOf ioTypes .Committed).map ρ).sum := by
  unfold showAccR committedOpenings
  rw [List.map_map]
  rfl

/-- Aggregation correctness: for an honest showing, the verifier's
`com_inputs` equals the true prepared public input plus `δ·(Σ_i ρ_i + z)`. -/
lemma verifyComInputs_honest (cs : ClientState F) (ioTypes : List PublicIOType)
    (ρ : Nat → F) (z : F) (pok : DLogPoK F) (randp : GrothProof F)
    (hlen : ioTypes.length = cs.inputs.length)
    (hvklen : cs.vk.gammaABC.length = cs.inputs.length + 1) :
    verifyComInputs
      { rand_proof := randp
        com_hidden_inputs := comHidden cs ioTypes z
        pok_inputs := pok
        commited_inputs := (committedOpenings cs.vk cs.inputs ioTypes ρ).map (fun o => o.c) }
      cs.vk ioTypes (revealedInputs cs.inputs ioTypes) =
    groth16_prepare_inputs cs.vk cs.inputs +
      cs.vk.delta * (showAccR cs ioTypes ρ + z) := by
  unfold verifyComInputs
  have htake : (((committedOpenings cs.vk cs.inputs ioTypes ρ).map (fun o => o.c)).take
      (idxOf ioTypes .Committed).length) =
      (committedOpenings cs.vk cs.inputs ioTypes ρ).map (fun o => o.c) := by
    rw [show (idxOf ioTypes PublicIOType.Committed).length =
        ((committedOpenings cs.vk cs.inputs ioTypes ρ).map (fun o => o.c)).length from
        by simp [committedOpenings], List.take_length]
  have hopc : ((committedOpenings cs.vk cs.inputs ioTypes ρ).map (fun o => o.c)).sum =
      cs.vk.delta * ((idxOf ioTypes .Committed).map ρ).sum +
        ((idxOf ioTypes .Committed).map
          (fun j => cs.vk.gammaABC.getD (j + 1) 0 * cs.inputs.getD j 0)).sum := by
    unfold committedOpenings
    rw [List.map_map,
      List.map_congr_left (g := fun j => cs.vk.delta * ρ j +
        cs.vk.gammaABC.getD (j + 1) 0 * cs.inputs.getD j 0)
        (fun j _ => by unfold msm_select; simp; try ring),
      sum_map_add, sum_map_mul_left]
  have hcomh : comHidden cs ioTypes z =
      ((idxOf ioTypes .Hidden).map
        (fun j => cs.vk.gammaABC.getD (j + 1) 0 * cs.inputs.getD j 0)).sum +
      cs.vk.delta * z := by
    unfold comHidden hiddenBases hiddenScalars
    rw [msm_append_singleton _ _ _ _ (by simp), msm_map_map]
  have hrev : msm_select ((idxOf ioTypes .Revealed).map
        (fun i => cs.vk.gammaABC.getD (i + 1) 0)) (revealedInputs cs.inputs ioTypes) =
      ((idxOf ioTypes .Revealed).map
        (fun j => cs.vk.gammaABC.getD (j + 1) 0 * cs.inputs.getD j 0)).sum := by
    unfold revealedInputs
    rw [msm_map_map]
  have hprep : groth16_prepare_inputs cs.vk cs.inputs =
      cs.vk.gammaABC.getD 0 0 + ((List.range ioTypes.length).map
        (fun j => cs.vk.gammaABC.getD (j + 1) 0 * cs.inputs.getD j 0)).sum := by
    unfold groth16_prepare_inputs
    rw [msm_as_range _ _ (by simp [hvklen]),
      show (cs.vk.gammaABC.drop 1).length = ioTypes.length from by simp [hvklen, hlen]]
    congr 1
    exact congrArg List.sum (List.map_congr_left (fun j _ => by
      rw [getD_drop_one]))
  rw [htake, hopc, hcomh, hrev, hprep, showAccR_eq]
  linear_combination sum_idxOf_classify ioTypes
    (fun j => cs.vk.gammaABC.getD (j + 1) 0 * cs.inputs.getD j 0)

/-- The pairing check for the adjusted rerandomized proof: with `γ = 1` the
corrective subtraction exactly compensates the blinding `δ·(Σρ + z)` carried
by the aggregated commitment. -/
lemma groth16_adjusted_check (vk : GrothVK F) (pf : GrothProof F) (pInput s r1 r2 : F)
    (hvalid : groth16_verify_prepared vk pf pInput = true)
    (hr1 : r1 ≠ 0) (hgamma : vk.gamma = 1) :
    groth16_verify_prepared vk
      { groth16_rerandomize vk pf r1 r2 with
        c := (groth16_rerandomize vk pf r1 r2).c - s }
      (pInput + vk.delta * s) = true := by
  rw [groth16_verify_prepared, decide_eq_true_eq] at hvalid ⊢
  unfold groth16_rerandomize
  dsimp only
  rw [hgamma] at hvalid ⊢
  have hinv : r1⁻¹ * r1 = 1 := inv_mul_cancel₀ hr1
  linear_combination hvalid +
    (pf.a * pf.b + pf.a * r2 * vk.delta) * hinv

end C1Aux

section VerifySkelLemmas

lemma mdlRangeLoop_values : ∀ (l : List RangeAttrOutcome) (r : Bool × String),
    mdlRangeLoop l = .ok (some r) → r = (false, "")
  | [], r, h => by simp [mdlRangeLoop] at h
  | a :: rest, r, h => by
      unfold mdlRangeLoop at h
      split_ifs at h
      all_goals
        first
          | exact mdlRangeLoop_values rest r h
          | exact h.symm
          | exact (Option.some.inj (Except.ok.inj h)).symm

lemma mdlRangeLoop_all_ok : ∀ l : List RangeAttrOutcome,
    l.all (fun a => a.daysOk && a.commitIndexOk && a.locFoundVerify && a.rangeOk) = true →
    mdlRangeLoop l = .ok none
  | [], _ => rfl
  | a :: rest, h => by
      simp only [List.all_cons, Bool.and_eq_true] at h
      obtain ⟨⟨⟨⟨h1, h2⟩, h3⟩, h4⟩, h5⟩ := h
      unfold mdlRangeLoop
      rw [if_neg (by simp [h1]), if_neg (by simp [h2]), if_neg (by simp [h3]),
        if_neg (by simp [h4])]
      exact mdlRangeLoop_all_ok rest h5

lemma rs_panic (db dp : Bool) (sj : String) :
    ResultShape db dp sj (.error .panic) := Or.inl rfl

lemma rs_false_empty (db dp : Bool) (sj : String) :
    ResultShape db dp sj (.ok (false, "")) := Or.inr (Or.inl rfl)

lemma rs_success (db dp : Bool) (sj : String) :
    ResultShape db dp sj (.ok (true, sj)) := Or.inr (Or.inr (Or.inr rfl))

lemma rs_device_missing (db dp : Bool) (sj : String) (hdb : db = true) (hdp : dp = false) :
    ResultShape db dp sj (.ok (false, "Device proof missing in show_proof")) :=
  Or.inr (Or.inr (Or.inl ⟨rfl, hdb, hdp⟩))

lemma rs_ite {db dp : Bool} {sj : String} {c : Prop} {inst : Decidable c}
    {r1 r2 : Except Panicked (Bool × String)}
    (h1 : c → ResultShape db dp sj r1) (h2 : ResultShape db dp sj r2) :
    ResultShape db dp sj (@ite _ c inst r1 r2) := by
  rcases inst with h | h
  · exact h2
  · exact h1 h

/-- Every possible result of `verify_show`: a panic, a bare `(false, "")`,
the missing-device-proof message, or success. -/
lemma verify_show_cases (env : VerifyShowEnv) :
    ResultShape env.deviceBound env.deviceProofPresent env.successJson (verify_show env) := by
  unfold verify_show
  refine rs_ite (fun _ => rs_panic _ _ _) ?_
  refine rs_ite (fun _ => rs_false_empty _ _ _) ?_
  refine rs_ite (fun _ => rs_false_empty _ _ _) ?_
  refine rs_ite (fun _ => rs_panic _ _ _) ?_
  refine rs_ite (fun _ => rs_false_empty _ _ _) ?_
  refine rs_ite (fun _ => rs_panic _ _ _) ?_
  refine rs_ite (fun _ => rs_false_empty _ _ _) ?_
  refine rs_ite (fun _ => rs_false_empty _ _ _) ?_
  refine rs_ite (fun _ => rs_panic _ _ _) ?_
  refine rs_ite (fun _ => rs_false_empty _ _ _) ?_
  rcases env.groth16 with _ | bg
  · exact rs_panic _ _ _
  · cases bg
    · exact rs_false_empty _ _ _
    · refine rs_ite (fun _ => rs_false_empty _ _ _) ?_
      refine rs_ite (fun _ => rs_false_empty _ _ _) ?_
      refine rs_ite (fun h => rs_device_missing _ _ _ h.1 (by simpa using h.2)) ?_
      refine rs_ite (fun _ => rs_false_empty _ _ _) ?_
      refine rs_ite (fun _ => rs_false_empty _ _ _) ?_
      refine rs_ite (fun _ => rs_false_empty _ _ _) ?_
      exact rs_success _ _ _

/-- Every possible result of `verify_show_mdl`. -/
lemma verify_show_mdl_cases (env : VerifyShowMdlEnv) :
    ResultShape env.deviceBound env.deviceProofPresent env.successJson
      (verify_show_mdl env) := by
  unfold verify_show_mdl
  refine rs_ite (fun _ => rs_false_empty _ _ _) ?_
  refine rs_ite (fun _ => rs_panic _ _ _) ?_
  refine rs_ite (fun _ => rs_false_empty _ _ _) ?_
  refine rs_ite (fun _ => rs_false_empty _ _ _) ?_
  refine rs_ite (fun _ => rs_panic _ _ _) ?_
  refine rs_ite (fun _ => rs_false_empty _ _ _) ?_
  refine rs_ite (fun _ => rs_panic _ _ _) ?_
  refine rs_ite (fun _ => rs_false_empty _ _ _) ?_
  refine rs_ite (fun _ => rs_false_empty _ _ _) ?_
  refine rs_ite (fun _ => rs_panic _ _ _) ?_
  refine rs_ite (fun _ => rs_false_empty _ _ _) ?_
  rcases env.groth16 with _ | bg
  · exact rs_panic _ _ _
  · cases bg
    · exact rs_false_empty _ _ _
    · refine rs_ite (fun _ => rs_false_empty _ _ _) ?_
      refine rs_ite (fun _ => rs_false_empty _ _ _) ?_
      rcases hr : mdlRangeLoop env.rangeAttrs with p | o
      · cases p
        exact rs_panic _ _ _
      · rcases o with _ | r
        · refine rs_ite (fun h => rs_device_missing _ _ _ h.1 (by simpa using h.2)) ?_
          refine rs_ite (fun _ => rs_false_empty _ _ _) ?_
          refine rs_ite (fun _ => rs_false_empty _ _ _) ?_
          refine rs_ite (fun _ => rs_false_empty _ _ _) ?_
          exact rs_success _ _ _
        · have hrv := mdlRangeLoop_values env.rangeAttrs r hr
          subst hrv
          exact rs_false_empty _ _ _

lemma verify_show_stale_rejects (env : VerifyShowEnv)
    (hpre : env.preFreshnessOk) (hg : env.groth16 = some true)
    (hstale : SHOW_PROOF_VALIDITY_SECONDS < env.nowSeconds - env.curTime) :
    verify_show env = .ok (false, "") := by
  obtain ⟨h1, h2, h3, h4, h5, h6, h7, h8⟩ := hpre
  have c1 : ¬ (¬ env.hashed.isEmpty = true ∧ ¬ env.preimagesPresent = true) := by
    rcases h4 with h4 | ⟨h4a, _, _⟩
    · simp [h4]
    · simp [h4a]
  have c2 : ¬ (¬ env.hashed.isEmpty = true ∧ ¬ env.preimagesParseOk = true) := by
    rcases h4 with h4 | ⟨_, h4b, _⟩
    · simp [h4]
    · simp [h4b]
  have c3 : ¬ (¬ env.hashed.isEmpty = true ∧
      ¬ env.hashed.all (fun a => a.digestLocFound) = true) := by
    rcases h4 with h4 | ⟨_, _, h4c⟩
    · simp [h4]
    · simp [h4c]
  have c4 : ¬ (env.deviceBound = true ∧ ¬ env.deviceKeyLocsFound = true) := by
    rcases h7 with h7 | h7 <;> simp [h7]
  unfold verify_show
  rw [if_neg (by simp [h1]), if_neg (by simp [h2]), if_neg (by simp [h3]), if_neg c1,
    if_neg c2, if_neg c3, if_neg (by simp [h5]), if_neg (by simp [h6]), if_neg c4,
    if_neg (by simp [h8])]
  simp only [hg]
  rw [if_pos hstale]

lemma verify_show_accepts (env : VerifyShowEnv)
    (hpre : env.preFreshnessOk) (hg : env.groth16 = some true)
    (hfresh : env.nowSeconds - env.curTime ≤ SHOW_PROOF_VALIDITY_SECONDS)
    (hpost : env.postChecksOk) :
    verify_show env = .ok (true, env.successJson) := by
  obtain ⟨h1, h2, h3, h4, h5, h6, h7, h8⟩ := hpre
  obtain ⟨hp1, hp2, hp3⟩ := hpost
  have c1 : ¬ (¬ env.hashed.isEmpty = true ∧ ¬ env.preimagesPresent = true) := by
    rcases h4 with h4 | ⟨h4a, _, _⟩
    · simp [h4]
    · simp [h4a]
  have c2 : ¬ (¬ env.hashed.isEmpty = true ∧ ¬ env.preimagesParseOk = true) := by
    rcases h4 with h4 | ⟨_, h4b, _⟩
    · simp [h4]
    · simp [h4b]
  have c3 : ¬ (¬ env.hashed.isEmpty = true ∧
      ¬ env.hashed.all (fun a => a.digestLocFound) = true) := by
    rcases h4 with h4 | ⟨_, _, h4c⟩
    · simp [h4]
    · simp [h4c]
  have c4 : ¬ (env.deviceBound = true ∧ ¬ env.deviceKeyLocsFound = true) := by
    rcases h7 with h7 | h7 <;> simp [h7]
  have c5 : ¬ (env.deviceBound = true ∧ ¬ env.deviceProofPresent = true) := by
    rcases hp2 with hp2 | ⟨hp2a, _⟩
    · simp [hp2]
    · simp [hp2a]
  have c6 : ¬ (env.deviceBound = true ∧ ¬ env.deviceOk = true) := by
    rcases hp2 with hp2 | ⟨_, hp2b⟩
    · simp [hp2]
    · simp [hp2b]
  have hnf : ¬ (SHOW_PROOF_VALIDITY_SECONDS < env.nowSeconds - env.curTime) := by omega
  unfold verify_show
  rw [if_neg (by simp [h1]), if_neg (by simp [h2]), if_neg (by simp [h3]), if_neg c1,
    if_neg c2, if_neg c3, if_neg (by simp [h5]), if_neg (by simp [h6]), if_neg c4,
    if_neg (by simp [h8])]
  simp only [hg]
  rw [if_neg hnf, if_neg (by simp [hp1]), if_neg c5, if_neg c6, if_neg (by simp [hp3]),
    if_neg (by simp [h5])]

lemma verify_show_mdl_stale_rejects (env : VerifyShowMdlEnv)
    (hpre : env.preFreshnessOk) (hg : env.groth16 = some true)
    (hstale : SHOW_PROOF_VALIDITY_SECONDS < env.nowSeconds - env.curTime) :
    verify_show_mdl env = .ok (false, "") := by
  obtain ⟨h1, h2, h3, h3', h4, h5, h6, h7, h8⟩ := hpre
  have c1 : ¬ (¬ env.hashed.isEmpty = true ∧ ¬ env.preimagesPresent = true) := by
    rcases h4 with h4 | ⟨h4a, _, _⟩
    · simp [h4]
    · simp [h4a]
  have c2 : ¬ (¬ env.hashed.isEmpty = true ∧ ¬ env.preimagesParseOk = true) := by
    rcases h4 with h4 | ⟨_, h4b, _⟩
    · simp [h4]
    · simp [h4b]
  have c3 : ¬ (¬ env.hashed.isEmpty = true ∧
      ¬ env.hashed.all (fun a => a.digestLocFound) = true) := by
    rcases h4 with h4 | ⟨_, _, h4c⟩
    · simp [h4]
    · simp [h4c]
  have c4 : ¬ (env.deviceBound = true ∧ ¬ env.deviceKeyLocsFound = true) := by
    rcases h7 with h7 | h7 <;> simp [h7]
  unfold verify_show_mdl
  rw [if_neg (by simp [h1]), if_neg (by simp [h2]), if_neg (by simp [h3]),
    if_neg (by simp [h3']), if_neg c1, if_neg c2, if_neg c3, if_neg (by simp [h5]),
    if_neg (by simp [h6]), if_neg c4, if_neg (by simp [h8])]
  simp only [hg]
  rw [if_pos hstale]

lemma verify_show_mdl_accepts (env : VerifyShowMdlEnv)
    (hpre : env.preFreshnessOk) (hg : env.groth16 = some true)
    (hfresh : env.nowSeconds - env.curTime ≤ SHOW_PROOF_VALIDITY_SECONDS)
    (hpost : env.postChecksOk) :
    verify_show_mdl env = .ok (true, env.successJson) := by
  obtain ⟨h1, h2, h3, h3', h4, h5, h6, h7, h8⟩ := hpre
  obtain ⟨hp1, hploop, hp2, hp3⟩ := hpost
  have c1 : ¬ (¬ env.hashed.isEmpty = true ∧ ¬ env.preimagesPresent = true) := by
    rcases h4 with h4 | ⟨h4a, _, _⟩
    · simp [h4]
    · simp [h4a]
  have c2 : ¬ (¬ env.hashed.isEmpty = true ∧ ¬ env.preimagesParseOk = true) := by
    rcases h4 with h4 | ⟨_, h4b, _⟩
    · simp [h4]
    · simp [h4b]
  have c3 : ¬ (¬ env.hashed.isEmpty = true ∧
      ¬ env.hashed.all (fun a => a.digestLocFound) = true) := by
    rcases h4 with h4 | ⟨_, _, h4c⟩
    · simp [h4]
    · simp [h4c]
  have c4 : ¬ (env.deviceBound = true ∧ ¬ env.deviceKeyLocsFound = true) := by
    rcases h7 with h7 | h7 <;> simp [h7]
  have c5 : ¬ (env.deviceBound = true ∧ ¬ env.deviceProofPresent = true) := by
    rcases hp2 with hp2 | ⟨hp2a, _⟩
    · simp [hp2]
    · simp [hp2a]
  have c6 : ¬ (env.deviceBound = true ∧ ¬ env.deviceOk = true) := by
    rcases hp2 with hp2 | ⟨_, hp2b⟩
    · simp [hp2]
    · simp [hp2b]
  have hnf : ¬ (SHOW_PROOF_VALIDITY_SECONDS < env.nowSeconds - env.curTime) := by omega
  have hloop := mdlRangeLoop_all_ok env.rangeAttrs hploop
  unfold verify_show_mdl
  rw [if_neg (by simp [h1]), if_neg (by simp [h2]), if_neg (by simp [h3]),
    if_neg (by simp [h3']), if_neg c1, if_neg c2, if_neg c3, if_neg (by simp [h5]),
    if_neg (by simp [h6]), if_neg c4, if_neg (by simp [h8])]
  simp only [hg]
  rw [if_neg hnf, if_neg (by simp [hp1])]
  simp only [hloop]
  rw [if_neg c5, if_neg c6, if_neg (by simp [hp3]), if_neg (by simp [h5])]

end VerifySkelLemmas

section C5Poly

variable {F : Type} [Field F] [DecidableEq F]

lemma evalP_nil (x : F) : evalP ([] : List F) x = 0 := rfl

lemma evalP_cons (c : F) (l : List F) (x : F) :
    evalP (c :: l) x = c + x * evalP l x := rfl

lemma evalP_addP (a b : List F) (x : F) :
    evalP (addP a b) x = evalP a x + evalP b x := by
  induction a generalizing b with
  | nil => simp [addP, evalP_nil]
  | cons c cs ih =>
      cases b with
      | nil => simp [addP, evalP_nil]
      | cons d ds =>
          simp only [addP, evalP_cons, ih]
          ring

lemma evalP_neg (b : List F) (x : F) :
    evalP (b.map (fun y => -y)) x = -evalP b x := by
  induction b with
  | nil => simp [evalP_nil]
  | cons d ds ih =>
      simp only [List.map_cons, evalP_cons, ih]
      ring

lemma evalP_subP (a b : List F) (x : F) :
    evalP (subP a b) x = evalP a x - evalP b x := by
  induction a generalizing b with
  | nil =>
      simp only [subP, evalP_nil, evalP_neg]
      ring
  | cons c cs ih =>
      cases b with
      | nil => simp [subP, evalP_nil]
      | cons d ds =>
          simp only [subP, evalP_cons, ih]
          ring

lemma evalP_smulP (c : F) (l : List F) (x : F) :
    evalP (smulP c l) x = c * evalP l x := by
  induction l with
  | nil => simp [smulP, evalP_nil]
  | cons d ds ih =>
      simp only [smulP, List.map_cons, evalP_cons] at ih ⊢
      rw [ih]
      ring

lemma evalP_mulP (a b : List F) (x : F) :
    evalP (mulP a b) x = evalP a x * evalP b x := by
  induction a with
  | nil => simp [mulP, evalP_nil]
  | cons c cs ih =>
      simp only [mulP, evalP_addP, evalP_smulP, evalP_cons, ih]
      ring

lemma evalP_append (a b : List F) (x : F) :
    evalP (a ++ b) x = evalP a x + x ^ a.length * evalP b x := by
  induction a with
  | nil => simp [evalP_nil]
  | cons c cs ih =>
      simp only [List.cons_append, evalP_cons, ih, List.length_cons]
      ring

lemma evalP_replicate_zero (n : Nat) (x : F) :
    evalP (List.replicate n (0 : F)) x = 0 := by
  induction n with
  | zero => rfl
  | succ k ih => simp [List.replicate_succ, evalP_cons, ih]

lemma evalP_mulVan (n : Nat) (l : List F) (x : F) :
    evalP (mulVan n l) x = (x ^ n - 1) * evalP l x := by
  unfold mulVan
  rw [evalP_subP, evalP_append, evalP_replicate_zero, List.length_replicate]
  ring

lemma evalP_divLin (l : List F) (z x : F) :
    evalP l x = (x - z) * evalP (divLin l z) x + evalP l z := by
  induction l with
  | nil => simp [divLin, evalP_nil]
  | cons c cs ih =>
      simp only [divLin, evalP_cons]
      linear_combination x * ih

lemma addP_length (a b : List F) : (addP a b).length = max a.length b.length := by
  induction a generalizing b with
  | nil => simp [addP]
  | cons c cs ih =>
      cases b with
      | nil => simp [addP]
      | cons d ds =>
          simp only [addP, List.length_cons, ih]
          omega

lemma divVanAux_succ (n fuel : Nat) (l : List F) (h : ¬ l.length ≤ n) :
    divVanAux n (fuel + 1) l =
      (addP (divVanAux n fuel (addP (l.take n) (l.drop n))).1 (l.drop n),
       (divVanAux n fuel (addP (l.take n) (l.drop n))).2) := by
  rw [divVanAux, if_neg h]

lemma divVanAux_spec (n : Nat) (hn : 1 ≤ n) (x : F) :
    ∀ (fuel : Nat) (l : List F), l.length ≤ fuel →
    evalP l x = evalP (divVanAux n fuel l).1 x * (x ^ n - 1) +
      evalP (divVanAux n fuel l).2 x
  | 0, l, _ => by simp [divVanAux, evalP_nil]
  | fuel + 1, l, hl => by
      by_cases h : l.length ≤ n
      · rw [show divVanAux n (fuel + 1) l = ([], l) from by rw [divVanAux, if_pos h]]
        simp [evalP_nil]
      · rw [divVanAux_succ n fuel l h]
        have hlen : (addP (l.take n) (l.drop n)).length ≤ fuel := by
          rw [addP_length]
          simp only [List.length_take, List.length_drop]
          omega
        have ih := divVanAux_spec n hn x fuel (addP (l.take n) (l.drop n)) hlen
        rw [evalP_addP] at ih
        have hmn : min n l.length = n := by omega
        have hsplit : evalP l x = evalP (l.take n) x + x ^ n * evalP (l.drop n) x := by
          conv_lhs => rw [← List.take_append_drop n l]
          rw [evalP_append, List.length_take, hmn]
        rw [hsplit, evalP_addP]
        linear_combination ih

lemma divVanAux_snd_length (n : Nat) (hn : 1 ≤ n) :
    ∀ (fuel : Nat) (l : List F), l.length ≤ fuel →
    (divVanAux n fuel l).2.length ≤ n
  | 0, l, hl => by
      have : l = [] := List.eq_nil_of_length_eq_zero (by omega)
      subst this
      simp only [divVanAux, List.length_nil]
      omega
  | fuel + 1, l, hl => by
      by_cases h : l.length ≤ n
      · rw [show divVanAux n (fuel + 1) l = ([], l) from by rw [divVanAux, if_pos h]]
        exact h
      · rw [divVanAux_succ n fuel l h]
        have hlen : (addP (l.take n) (l.drop n)).length ≤ fuel := by
          rw [addP_length]
          simp only [List.length_take, List.length_drop]
          omega
        exact divVanAux_snd_length n hn fuel (addP (l.take n) (l.drop n)) hlen

lemma divVan_spec (n : Nat) (hn : 1 ≤ n) (l : List F) (x : F) :
    evalP l x = evalP (divVan n l).1 x * (x ^ n - 1) + evalP (divVan n l).2 x :=
  divVanAux_spec n hn x l.length l le_rfl

lemma divVan_snd_length (n : Nat) (hn : 1 ≤ n) (l : List F) :
    (divVan n l).2.length ≤ n :=
  divVanAux_snd_length n hn l.length l le_rfl

lemma evalP_eq_sum (l : List F) (x : F) :
    evalP l x = ∑ j ∈ Finset.range l.length, l.getD j 0 * x ^ j := by
  induction l with
  | nil => simp [evalP_nil]
  | cons c cs ih =>
      rw [evalP_cons, List.length_cons, Finset.sum_range_succ']
      simp only [ListAux.getD_cons_zero, pow_zero, mul_one]
      rw [ih, Finset.mul_sum, add_comm]
      congr 1
      apply Finset.sum_congr rfl
      intro j _
      rw [show (c :: cs).getD (j + 1) 0 = cs.getD j 0 from rfl]
      ring

lemma toPoly_eval (l : List F) (x : F) : (toPoly l).eval x = evalP l x := by
  induction l with
  | nil => simp [toPoly, evalP_nil]
  | cons c cs ih =>
      simp only [toPoly, List.foldr_cons, evalP_cons, Polynomial.eval_add,
        Polynomial.eval_C, Polynomial.eval_mul, Polynomial.eval_X]
      rw [← ih]
      rfl

lemma toPoly_natDegree (l : List F) : (toPoly l).natDegree ≤ l.length - 1 := by
  induction l with
  | nil => simp [toPoly]
  | cons c cs ih =>
      cases cs with
      | nil =>
          show (Polynomial.C c + Polynomial.X * toPoly []).natDegree ≤ 1 - 1
          simp [toPoly]
      | cons d ds =>
          have hstep : toPoly (c :: d :: ds) =
              Polynomial.C c + Polynomial.X * toPoly (d :: ds) := rfl
          rw [hstep, List.length_cons]
          have h1 : (Polynomial.X * toPoly (d :: ds)).natDegree ≤
              1 + (toPoly (d :: ds)).natDegree := by
            refine le_trans Polynomial.natDegree_mul_le ?_
            rw [Polynomial.natDegree_X]
          have h2 := Polynomial.natDegree_add_le (Polynomial.C c)
            (Polynomial.X * toPoly (d :: ds))
          rw [Polynomial.natDegree_C, max_eq_right (Nat.zero_le _)] at h2
          simp only [List.length_cons] at ih ⊢
          omega

lemma evalP_eq_zero_of_vanish (r : List F) (n : Nat) (hn : 1 ≤ n)
    (hr : r.length ≤ n) (ω : F)
    (hinj : Set.InjOn (fun i => ω ^ i) (Finset.range n))
    (hvan : ∀ i, i < n → evalP r (ω ^ i) = 0) (x : F) : evalP r x = 0 := by
  have hzero : toPoly r = 0 := by
    apply Polynomial.eq_zero_of_natDegree_lt_card_of_eval_eq_zero' (toPoly r)
      ((Finset.range n).image (fun i => ω ^ i))
    · intro y hy
      obtain ⟨i, hi, rfl⟩ := Finset.mem_image.mp hy
      rw [toPoly_eval]
      exact hvan i (Finset.mem_range.mp hi)
    · rw [Finset.card_image_of_injOn (by simpa using hinj), Finset.card_range]
      have := toPoly_natDegree r
      omega
  rw [← toPoly_eval, hzero]
  simp

end C5Poly

section C5Zmod

variable {p : Nat} [Fact (Nat.Prime p)]

lemma pow_mod_eq (ω : ZMod p) (n j : Nat) (hω : ω ^ n = 1) :
    ω ^ (j % n) = ω ^ j := by
  have h : ω ^ j = (ω ^ n) ^ (j / n) * ω ^ (j % n) := by
    rw [← pow_mul, ← pow_add, Nat.div_add_mod]
  rw [h, hω, one_pow, one_mul]

lemma evalP_scaleOmega (n : Nat) (ω : ZMod p) (hω : ω ^ n = 1)
    (l : List (ZMod p)) (x : ZMod p) :
    evalP (scaleOmega n ω l) x = evalP l (ω * x) := by
  rw [evalP_eq_sum, evalP_eq_sum]
  have hlen : (scaleOmega n ω l).length = l.length := by
    simp [scaleOmega]
  rw [hlen]
  apply Finset.sum_congr rfl
  intro j hj
  have hjl : j < l.length := Finset.mem_range.mp hj
  have hget : (scaleOmega n ω l).getD j 0 = l.getD j 0 * ω ^ (j % n) := by
    unfold scaleOmega
    rw [ListAux.getD_map _ (List.range l.length) j 0 0 (by simpa using hjl),
      ListAux.getD_range _ _ hjl]
  rw [hget, pow_mod_eq ω n j hω, mul_pow]
  ring

lemma omega_ne_zero (n : Nat) (ω : ZMod p) (hn : 1 ≤ n) (hω : ω ^ n = 1) :
    ω ≠ 0 := by
  intro h
  rw [h, zero_pow (by omega)] at hω
  exact zero_ne_one hω

lemma omega_pow_inj (n : Nat) (ω : ZMod p) (hn : 1 ≤ n) (hω : ω ^ n = 1)
    (hprim : ∀ k, 0 < k → k < n → ω ^ k ≠ 1) :
    ∀ i j, i < n → j < n → ω ^ i = ω ^ j → i = j := by
  have key : ∀ i j, i < j → j < n → ω ^ i ≠ ω ^ j := by
    intro i j hij hj h
    have hω0 : ω ≠ 0 := omega_ne_zero n ω hn hω
    have hsplit : ω ^ j = ω ^ i * ω ^ (j - i) := by
      rw [← pow_add]
      congr 1
      omega
    rw [hsplit] at h
    have hpi : ω ^ i ≠ 0 := pow_ne_zero i hω0
    have h1 : ω ^ i * ω ^ (j - i) = ω ^ i * 1 := by
      rw [mul_one]
      exact h.symm
    exact hprim (j - i) (by omega) (by omega) (mul_left_cancel₀ hpi h1)
  intro i j hi hj h
  rcases lt_trichotomy i j with hlt | heq | hgt
  · exact absurd h (key i j hlt hj)
  · exact heq
  · exact absurd h.symm (key j i hgt hi)

lemma zeta_sum_zero (n : Nat) (ζ : ZMod p) (hζn : ζ ^ n = 1) (hζ : ζ ≠ 1) :
    ∑ j ∈ Finset.range n, ζ ^ j = 0 := by
  rw [geom_sum_eq hζ, hζn]
  simp

lemma evalP_idft (n : Nat) (ω : ZMod p) (hn : 1 ≤ n) (hω : ω ^ n = 1)
    (hprim : ∀ k, 0 < k → k < n → ω ^ k ≠ 1) (hnF : (n : ZMod p) ≠ 0)
    (e : Nat → ZMod p) (k : Nat) (hk : k < n) :
    evalP (idft n ω e) (ω ^ k) = e k := by
  have hω0 : ω ≠ 0 := omega_ne_zero n ω hn hω
  rw [evalP_eq_sum]
  have hlen : (idft n ω e).length = n := by simp [idft]
  rw [hlen]
  have hget : ∀ j, j < n → (idft n ω e).getD j 0 =
      (n : ZMod p)⁻¹ * ∑ i ∈ Finset.range n, e i * ω⁻¹ ^ (i * j) := by
    intro j hj
    unfold idft
    rw [ListAux.getD_map _ (List.range n) j 0 0 (by simpa using hj),
      ListAux.getD_range _ _ hj]
  have hinner : ∀ i ∈ Finset.range n,
      e i * ∑ j ∈ Finset.range n, (ω⁻¹ ^ i * ω ^ k) ^ j =
        if i = k then e k * (n : ZMod p) else 0 := by
    intro i hi
    by_cases hik : i = k
    · subst hik
      rw [if_pos rfl]
      have h1 : ω⁻¹ ^ i * ω ^ i = 1 := by
        rw [inv_pow]
        exact inv_mul_cancel₀ (pow_ne_zero i hω0)
      rw [h1]
      simp
    · rw [if_neg hik]
      have hζn : (ω⁻¹ ^ i * ω ^ k) ^ n = 1 := by
        rw [mul_pow, ← pow_mul, ← pow_mul, Nat.mul_comm i n, Nat.mul_comm k n,
          pow_mul, pow_mul, inv_pow, hω, inv_one, one_pow, one_pow, one_mul]
      have hζ1 : ω⁻¹ ^ i * ω ^ k ≠ 1 := by
        intro h
        have hik2 : ω ^ k = ω ^ i := by
          have h2 := congrArg (fun t => ω ^ i * t) h
          simp only [mul_one] at h2
          rw [← h2, ← mul_assoc, inv_pow, mul_inv_cancel₀ (pow_ne_zero i hω0),
            one_mul]
        exact hik (omega_pow_inj n ω hn hω hprim i k (Finset.mem_range.mp hi) hk
          (hik2.symm))
      rw [zeta_sum_zero n _ hζn hζ1, mul_zero]
  calc ∑ j ∈ Finset.range n, (idft n ω e).getD j 0 * (ω ^ k) ^ j
      = ∑ j ∈ Finset.range n, (n : ZMod p)⁻¹ *
          ∑ i ∈ Finset.range n, e i * (ω⁻¹ ^ i * ω ^ k) ^ j := by
        apply Finset.sum_congr rfl
        intro j hj
        rw [hget j (Finset.mem_range.mp hj), mul_assoc]
        congr 1
        rw [Finset.sum_mul]
        apply Finset.sum_congr rfl
        intro i _
        have hpows : (ω⁻¹ ^ i * ω ^ k) ^ j = ω⁻¹ ^ (i * j) * (ω ^ k) ^ j := by
          rw [mul_pow, ← pow_mul]
        rw [hpows]
        ring
    _ = (n : ZMod p)⁻¹ * ∑ i ∈ Finset.range n,
          e i * ∑ j ∈ Finset.range n, (ω⁻¹ ^ i * ω ^ k) ^ j := by
        rw [← Finset.mul_sum, Finset.sum_comm]
        congr 1
        apply Finset.sum_congr rfl
        intro i _
        rw [Finset.mul_sum]
    _ = (n : ZMod p)⁻¹ * (e k * (n : ZMod p)) := by
        rw [Finset.sum_congr rfl hinner, Finset.sum_ite_eq' (Finset.range n) k
          (fun _ => e k * (n : ZMod p)), if_pos (Finset.mem_range.mpr hk)]
    _ = e k := by field_simp

lemma sum_bits (v : Nat) : ∀ n : Nat,
    ∑ k ∈ Finset.range n, v / 2 ^ k % 2 * 2 ^ k = v % 2 ^ n
  | 0 => by simp [Nat.mod_one]
  | n + 1 => by
      rw [Finset.sum_range_succ, sum_bits v n, Nat.mod_pow_succ]
      ring

lemma bitF_zero_or_one (m : ZMod p) (j : Nat) : bitF m j = 0 ∨ bitF m j = 1 := by
  unfold bitF
  rcases Nat.mod_two_eq_zero_or_one (m.val / 2 ^ j) with h | h <;> rw [h]
  · left; simp
  · right; simp

lemma gEval_zero (m : ZMod p) (n : Nat) :
    gEval m n 0 = ((m.val % 2 ^ n : Nat) : ZMod p) := by
  unfold gEval bitF
  rw [← sum_bits m.val n]
  push_cast
  apply Finset.sum_congr rfl
  intro k _
  rw [Nat.zero_add]

lemma gEval_last (m : ZMod p) (n : Nat) (hn : 1 ≤ n) :
    gEval m n (n - 1) = bitF m (n - 1) := by
  unfold gEval
  rw [show n - (n - 1) = 1 from by omega, Finset.sum_range_one]
  simp

lemma gEval_rec (m : ZMod p) (n i : Nat) (hi : i + 1 < n) :
    gEval m n i = 2 * gEval m n (i + 1) + bitF m i := by
  unfold gEval
  rw [show n - i = (n - (i + 1)) + 1 from by omega, Finset.sum_range_succ']
  rw [Finset.mul_sum]
  congr 1
  · apply Finset.sum_congr rfl
    intro k _
    rw [show i + (k + 1) = i + 1 + k from by omega]
    ring
  · simp

end C5Zmod

section C5Main

variable {p : Nat} [Fact (Nat.Prime p)]

lemma kzg_open_identity (β γ : ZMod p) (pl φ : List (ZMod p)) (z : ZMod p) :
    KZGcommit β γ pl φ + z * (KZGopen β γ pl φ z).1 - evalP pl z -
      γ * (KZGopen β γ pl φ z).2 = β * (KZGopen β γ pl φ z).1 := by
  unfold KZGcommit KZGopen
  simp only
  linear_combination evalP_divLin pl z β + γ * evalP_divLin φ z β

lemma evalP_singleton (m x : ZMod p) : evalP [m] x = m := by
  simp [evalP_cons, evalP_nil]

lemma evalP_one_list (x : ZMod p) : evalP [(1 : ZMod p)] x = 1 := by
  simp [evalP_cons, evalP_nil]

lemma evalP_linfactor (a x : ZMod p) : evalP [-a, 1] x = x - a := by
  simp [evalP_cons, evalP_nil]
  ring

lemma vRho_rpProof (E : RangeEnv p) (dl : DLogPoK (ZMod p)) :
    vRho (rpProof E dl) E.hashRho = rpRho E := rfl

lemma vC_rpProof (E : RangeEnv p) (dl : DLogPoK (ZMod p)) :
    vC (rpProof E dl) E.hashC = rpC E := rfl

lemma rpWhat_eval (E : RangeEnv p) (x : ZMod p) :
    evalP (rpWhat E) x =
      ((rpRho E ^ E.n - 1) / (rpRho E - 1)) * E.ped.m +
        (rpRho E ^ E.n - 1) * evalP (rpQ E) x := by
  unfold rpWhat
  rw [evalP_addP, evalP_smulP, evalP_smulP, evalP_singleton]

lemma rpWhatRand_eval (E : RangeEnv p) (x : ZMod p) :
    evalP (rpWhatRand E) x =
      ((rpRho E ^ E.n - 1) / (rpRho E - 1)) * evalP E.phi_f x +
        (rpRho E ^ E.n - 1) * evalP E.phi_q x := by
  unfold rpWhatRand
  rw [evalP_addP, evalP_smulP, evalP_smulP]

lemma vComWhat_rpProof (E : RangeEnv p) (dl : DLogPoK (ZMod p)) :
    vComWhat E.n (rpProof E dl) E.hashRho =
      KZGcommit E.beta E.gamma (rpWhat E) (rpWhatRand E) := by
  unfold vComWhat
  rw [show (rpProof E dl).com_f = rpComF E from rfl,
    show (rpProof E dl).com_q = rpComQ E from rfl, vRho_rpProof]
  unfold KZGcommit rpComF rpComQ KZGcommit
  rw [rpWhat_eval, rpWhatRand_eval, evalP_singleton]
  ring

lemma rp_batch_passes (E : RangeEnv p) (dl : DLogPoK (ZMod p)) :
    kzg_batch_check E.beta E.gamma E.u1 E.u2
      (rpProof E dl).com_g (vRho (rpProof E dl) E.hashRho)
      (rpProof E dl).eval_g (rpProof E dl).proof_g
      (rpProof E dl).com_g (vRho (rpProof E dl) E.hashRho * E.omg)
      (rpProof E dl).eval_gw (rpProof E dl).proof_gw
      (vComWhat E.n (rpProof E dl) E.hashRho) (vRho (rpProof E dl) E.hashRho)
      (rpProof E dl).eval_w_hat (rpProof E dl).proof_w_hat = true := by
  rw [vComWhat_rpProof, vRho_rpProof]
  unfold kzg_batch_check
  rw [decide_eq_true_eq]
  have h1 := kzg_open_identity E.beta E.gamma (rpGB E) E.phi_g (rpRho E)
  have h2 := kzg_open_identity E.beta E.gamma (rpGB E) E.phi_g (rpRho E * E.omg)
  have h3 := kzg_open_identity E.beta E.gamma (rpWhat E) (rpWhatRand E) (rpRho E)
  show rpComG E + rpRho E * (KZGopen E.beta E.gamma (rpGB E) E.phi_g (rpRho E)).1 +
      E.u1 * (rpComG E + rpRho E * E.omg *
        (KZGopen E.beta E.gamma (rpGB E) E.phi_g (rpRho E * E.omg)).1) +
      E.u2 * (KZGcommit E.beta E.gamma (rpWhat E) (rpWhatRand E) + rpRho E *
        (KZGopen E.beta E.gamma (rpWhat E) (rpWhatRand E) (rpRho E)).1) -
      (evalP (rpGB E) (rpRho E) + E.u1 * evalP (rpGB E) (rpRho E * E.omg) +
        E.u2 * evalP (rpWhat E) (rpRho E)) -
      E.gamma * ((KZGopen E.beta E.gamma (rpGB E) E.phi_g (rpRho E)).2 +
        E.u1 * (KZGopen E.beta E.gamma (rpGB E) E.phi_g (rpRho E * E.omg)).2 +
        E.u2 * (KZGopen E.beta E.gamma (rpWhat E) (rpWhatRand E) (rpRho E)).2) =
      E.beta * ((KZGopen E.beta E.gamma (rpGB E) E.phi_g (rpRho E)).1 +
        E.u1 * (KZGopen E.beta E.gamma (rpGB E) E.phi_g (rpRho E * E.omg)).1 +
        E.u2 * (KZGopen E.beta E.gamma (rpWhat E) (rpWhatRand E) (rpRho E)).1)
  have hcg : rpComG E = KZGcommit E.beta E.gamma (rpGB E) E.phi_g := rfl
  rw [hcg]
  linear_combination h1 + E.u1 * h2 + E.u2 * h3

lemma gB_domain (E : RangeEnv p) (hn : 1 ≤ E.n) (hω : E.omg ^ E.n = 1)
    (hprim : ∀ k, 0 < k → k < E.n → E.omg ^ k ≠ 1) (hnF : (E.n : ZMod p) ≠ 0)
    (k : Nat) (hk : k < E.n) :
    evalP (rpGB E) (E.omg ^ k) = gEval E.ped.m E.n k := by
  unfold rpGB
  rw [evalP_addP, evalP_mulVan]
  have hvan : (E.omg ^ k) ^ E.n = 1 := by
    rw [← pow_mul, Nat.mul_comm, pow_mul, hω, one_pow]
  rw [hvan, sub_self, zero_mul, add_zero]
  exact evalP_idft E.n E.omg hn hω hprim hnF (gEval E.ped.m E.n) k hk

lemma rem1_inrange (E : RangeEnv p) (hn : 1 ≤ E.n) (hω : E.omg ^ E.n = 1)
    (hprim : ∀ k, 0 < k → k < E.n → E.omg ^ k ≠ 1) (hnF : (E.n : ZMod p) ≠ 0)
    (hm : E.ped.m.val < 2 ^ E.n) :
    evalP (subP (rpGB E) [E.ped.m]) 1 = 0 := by
  rw [evalP_subP, evalP_singleton]
  have h1 : (1 : ZMod p) = E.omg ^ 0 := (pow_zero E.omg).symm
  rw [h1, gB_domain E hn hω hprim hnF 0 (by omega), gEval_zero,
    Nat.mod_eq_of_lt hm, ZMod.natCast_rightInverse E.ped.m, sub_self]

lemma rem1_boundary (E : RangeEnv p) (hn : 1 ≤ E.n) (hω : E.omg ^ E.n = 1)
    (hprim : ∀ k, 0 < k → k < E.n → E.omg ^ k ≠ 1) (hnF : (E.n : ZMod p) ≠ 0)
    (hm : E.ped.m.val = 2 ^ E.n) :
    evalP (subP (rpGB E) [E.ped.m]) 1 = -E.ped.m := by
  rw [evalP_subP, evalP_singleton]
  have h1 : (1 : ZMod p) = E.omg ^ 0 := (pow_zero E.omg).symm
  rw [h1, gB_domain E hn hω hprim hnF 0 (by omega), gEval_zero, hm,
    Nat.mod_self]
  simp

lemma rem2_zero (E : RangeEnv p) (hn : 1 ≤ E.n) (hω : E.omg ^ E.n = 1)
    (hprim : ∀ k, 0 < k → k < E.n → E.omg ^ k ≠ 1) (hnF : (E.n : ZMod p) ≠ 0) :
    evalP (mulP (rpGB E) (subP [1] (rpGB E))) (E.omg ^ (E.n - 1)) = 0 := by
  rw [evalP_mulP, evalP_subP, evalP_one_list,
    gB_domain E hn hω hprim hnF (E.n - 1) (by omega),
    gEval_last E.ped.m E.n hn]
  rcases bitF_zero_or_one E.ped.m (E.n - 1) with h | h <;> rw [h] <;> ring

lemma w3_domain_zero (E : RangeEnv p) (hn : 1 ≤ E.n) (hω : E.omg ^ E.n = 1)
    (hprim : ∀ k, 0 < k → k < E.n → E.omg ^ k ≠ 1) (hnF : (E.n : ZMod p) ≠ 0)
    (i : Nat) (hi : i < E.n) :
    evalP (rpW3 E) (E.omg ^ i) = 0 := by
  unfold rpW3
  simp only [evalP_mulP, evalP_subP, evalP_one_list, evalP_smulP,
    evalP_linfactor]
  have hgw : evalP (rpGWB E) (E.omg ^ i) = evalP (rpGB E) (E.omg ^ (i + 1)) := by
    unfold rpGWB
    rw [evalP_scaleOmega E.n E.omg hω, ← pow_succ']
  by_cases hlast : i = E.n - 1
  · subst hlast
    rw [sub_self, mul_zero]
  · have hi1 : i + 1 < E.n := by omega
    rw [hgw, gB_domain E hn hω hprim hnF i hi, gB_domain E hn hω hprim hnF (i + 1) hi1]
    have hrec := gEval_rec E.ped.m E.n i hi1
    have hbit : gEval E.ped.m E.n i - 2 * gEval E.ped.m E.n (i + 1) = bitF E.ped.m i := by
      rw [hrec]; ring
    rw [hbit]
    rcases bitF_zero_or_one E.ped.m i with h | h <;> rw [h] <;> ring

lemma rem3_zero (E : RangeEnv p) (hn : 1 ≤ E.n) (hω : E.omg ^ E.n = 1)
    (hprim : ∀ k, 0 < k → k < E.n → E.omg ^ k ≠ 1) (hnF : (E.n : ZMod p) ≠ 0)
    (x : ZMod p) :
    evalP (divVan E.n (rpW3 E)).2 x = 0 := by
  apply evalP_eq_zero_of_vanish _ E.n hn (divVan_snd_length E.n hn _) E.omg
  · intro a ha b hb hab
    simp only [Finset.coe_range, Set.mem_Iio] at ha hb
    exact omega_pow_inj E.n E.omg hn hω hprim a b ha hb hab
  · intro i hi
    have hspec := divVan_spec E.n hn (rpW3 E) (E.omg ^ i)
    have hvan : (E.omg ^ i) ^ E.n = 1 := by
      rw [← pow_mul, Nat.mul_comm, pow_mul, hω, one_pow]
    rw [w3_domain_zero E hn hω hprim hnF i hi, hvan, sub_self, mul_zero,
      zero_add] at hspec
    exact hspec.symm

lemma vEvalW_master (E : RangeEnv p) (dl : DLogPoK (ZMod p)) (hn : 1 ≤ E.n)
    (hω : E.omg ^ E.n = 1) (hA : rpRho E - 1 ≠ 0)
    (hB : rpRho E - E.omg ^ (E.n - 1) ≠ 0) :
    vEvalW E.n E.omg (rpProof E dl) E.hashC E.hashRho =
      (rpRho E ^ E.n - 1) * evalP (subP (rpGB E) [E.ped.m]) 1 / (rpRho E - 1) +
      rpC E * ((rpRho E ^ E.n - 1) *
        evalP (mulP (rpGB E) (subP [1] (rpGB E))) (E.omg ^ (E.n - 1)) /
        (rpRho E - E.omg ^ (E.n - 1))) +
      rpC E * rpC E * evalP (divVan E.n (rpW3 E)).2 (rpRho E) := by
  unfold vEvalW
  rw [vRho_rpProof, vC_rpProof]
  rw [show (rpProof E dl).eval_g = evalP (rpGB E) (rpRho E) from rfl,
    show (rpProof E dl).eval_gw = evalP (rpGB E) (rpRho E * E.omg) from rfl,
    show (rpProof E dl).eval_w_hat = evalP (rpWhat E) (rpRho E) from rfl]
  have h1 := evalP_divLin (subP (rpGB E) [E.ped.m]) 1 (rpRho E)
  rw [evalP_subP, evalP_singleton] at h1
  have h2 := evalP_divLin (mulP (rpGB E) (subP [1] (rpGB E)))
    (E.omg ^ (E.n - 1)) (rpRho E)
  rw [evalP_mulP, evalP_subP, evalP_one_list] at h2
  have h3 := divVan_spec E.n hn (rpW3 E) (rpRho E)
  have h3' : evalP (rpW3 E) (rpRho E) =
      evalP (rpQ3 E) (rpRho E) * (rpRho E ^ E.n - 1) +
        evalP (divVan E.n (rpW3 E)).2 (rpRho E) := h3
  have h4 : evalP (rpW3 E) (rpRho E) =
      (evalP (rpGB E) (rpRho E) - 2 * evalP (rpGB E) (rpRho E * E.omg)) *
        (1 - evalP (rpGB E) (rpRho E) + 2 * evalP (rpGB E) (rpRho E * E.omg)) *
        (rpRho E - E.omg ^ (E.n - 1)) := by
    unfold rpW3
    simp only [evalP_mulP, evalP_subP, evalP_one_list, evalP_smulP,
      evalP_linfactor]
    have hgw : evalP (rpGWB E) (rpRho E) = evalP (rpGB E) (rpRho E * E.omg) := by
      unfold rpGWB
      rw [evalP_scaleOmega E.n E.omg hω, mul_comm]
    rw [hgw]
    ring
  have h5 : evalP (rpWhat E) (rpRho E) =
      ((rpRho E ^ E.n - 1) / (rpRho E - 1)) * E.ped.m +
        (rpRho E ^ E.n - 1) *
          (evalP (rpQ1 E) (rpRho E) + rpC E * evalP (rpQ2 E) (rpRho E) +
            rpC E * rpC E * evalP (rpQ3 E) (rpRho E)) := by
    rw [rpWhat_eval]
    congr 1
    unfold rpQ
    rw [evalP_addP, evalP_addP, evalP_smulP, evalP_smulP]
  have hA1 : (rpRho E - 1) * (rpRho E - 1)⁻¹ = 1 := mul_inv_cancel₀ hA
  have hB1 : (rpRho E - E.omg ^ (E.n - 1)) * (rpRho E - E.omg ^ (E.n - 1))⁻¹ = 1 :=
    mul_inv_cancel₀ hB
  rw [h5]
  have hq1 : evalP (rpQ1 E) (rpRho E) = evalP (divLin (subP (rpGB E) [E.ped.m]) 1)
      (rpRho E) := rfl
  have hq2 : evalP (rpQ2 E) (rpRho E) =
      evalP (divLin (mulP (rpGB E) (subP [1] (rpGB E))) (E.omg ^ (E.n - 1)))
        (rpRho E) := rfl
  rw [hq1, hq2]
  linear_combination
    ((rpRho E ^ E.n - 1) * (rpRho E - 1)⁻¹) * h1 +
    (rpC E * (rpRho E ^ E.n - 1) * (rpRho E - E.omg ^ (E.n - 1))⁻¹) * h2 +
    (rpC E * rpC E) * h3' - (rpC E * rpC E) * h4 +
    ((rpRho E ^ E.n - 1) *
      evalP (divLin (subP (rpGB E) [E.ped.m]) 1) (rpRho E)) * hA1 +
    (rpC E * (rpRho E ^ E.n - 1) *
      evalP (divLin (mulP (rpGB E) (subP [1] (rpGB E))) (E.omg ^ (E.n - 1)))
        (rpRho E)) * hB1



lemma rpDleq_eq (E : RangeEnv p) (b0 b1 : ZMod p) (hbases : E.ped.bases = [b0, b1])
    (hφf : E.phi_f.length = 3) :
    rpDleq E = some (DLogPoK.proveResult E.dloghash [] [E.ped.c, rpComF E]
      [E.ped.bases, com_f_basis E.beta E.gamma]
      [[E.ped.m, E.ped.r], E.phi_f ++ [E.ped.m]] (some [(0, 3)]) E.rsup) := by
  unfold rpDleq
  apply DLogPoK.prove_eq_some
  · rfl
  · rfl
  · intro i hi
    have hi2 : i < 2 := by simpa using hi
    clear hi
    interval_cases i
    · simp [hbases]
    · simp [com_f_basis, hφf]
  · intro l hl
    cases hl
    refine ⟨rfl, ?_⟩
    intro q hq
    rw [List.mem_singleton] at hq
    subst hq
    constructor
    · simp [hbases]
    · simp [com_f_basis]

lemma rpDleq_verify (E : RangeEnv p) (b0 b1 : ZMod p)
    (hbases : E.ped.bases = [b0, b1])
    (hc : E.ped.c = b0 * E.ped.m + b1 * E.ped.r)
    (hφf : E.phi_f.length = 3) :
    DLogPoK.verify (DLogPoK.proveResult E.dloghash [] [E.ped.c, rpComF E]
      [E.ped.bases, com_f_basis E.beta E.gamma]
      [[E.ped.m, E.ped.r], E.phi_f ++ [E.ped.m]] (some [(0, 3)]) E.rsup)
      E.dloghash [] [[b0, b1], com_f_basis E.beta E.gamma]
      [E.ped.c, rpComF E] (some [(0, 3)]) = some true := by
  rw [← hbases]
  obtain ⟨f0, f1, f2, hf⟩ := List.length_eq_three.mp hφf
  apply DLogPoK.verify_proveResult
  · rfl
  · intro i hi
    have hi2 : i < 2 := by simpa using hi
    clear hi
    interval_cases i
    · simp [hbases]
    · simp [com_f_basis, hφf]
  · intro i hi
    have hi2 : i < 2 := by simpa using hi
    clear hi
    interval_cases i
    · show E.ped.c = msm_select (E.ped.bases) [E.ped.m, E.ped.r]
      rw [hbases]
      simp only [msm_select, List.zipWith_cons_cons, List.zipWith_nil_right,
        List.sum_cons, List.sum_nil]
      rw [hc]
      ring
    · show rpComF E = msm_select (com_f_basis E.beta E.gamma) (E.phi_f ++ [E.ped.m])
      simp only [rpComF, KZGcommit, com_f_basis, msm_select, hf, List.cons_append,
        List.nil_append, List.zipWith_cons_cons, List.zipWith_nil_right,
        List.sum_cons, List.sum_nil, evalP_cons, evalP_nil]
      ring
  · intro l hl
    cases hl
    refine ⟨rfl, List.pairwise_singleton _ _, ?_⟩
    intro q hq
    rw [List.mem_singleton] at hq
    subst hq
    refine ⟨by simp [hbases], by simp [com_f_basis], ?_⟩
    show ([E.ped.m, E.ped.r].getD 0 0) = ((E.phi_f ++ [E.ped.m]).getD 3 0)
    rw [hf]
    rfl

end C5Main


/-- C1 counterexample: over `ZMod 5` with a verifying key whose `γ = 2`, a
cached proof that verifies for its cached inputs, and one committed input,
the honest showing produced by `show_groth16` is rejected by
`ShowGroth16::verify`: the corrective subtraction `π'.C −= G·(Σρ + z)`
cancels the commitment blinding `δ·(Σρ + z)` in the pairing equation only
when `γ = 1`, so the claim fails for Groth16 keys that are not in the
`γ = 1` normal form the showing protocol relies on. -/
theorem claim_C1_counterexample :
    (groth16_verify_prepared (F := ZMod 5)
        ⟨0, 0, 2, 1, [0, 1]⟩ ⟨1, 1, 1⟩
        (groth16_prepare_inputs ⟨0, 0, 2, 1, [0, 1]⟩ [0]) = true) ∧ (1 : ZMod 5) ≠ 0 ∧
    (show_groth16 (F := ZMod 5) ⟨[0], ⟨1, 1, 1⟩, ⟨0, 0, 2, 1, [0, 1]⟩⟩ [] [.Committed]
        (fun _ => 1) 1 1 0 (fun _ _ => 0) (fun _ => 0)).bind
      (fun sgops => sgops.1.verify ⟨0, 0, 2, 1, [0, 1]⟩ [] [.Committed]
        (revealedInputs [0] [.Committed]) (fun _ => 0)) = some false := by
  refine ⟨by decide, by decide, ?_⟩
  rw [show_groth16]
  have hrr : groth16_rerandomize (F := ZMod 5) ⟨0, 0, 2, 1, [0, 1]⟩ ⟨1, 1, 1⟩ 1 0 =
      ⟨1, 1, 1⟩ := by
    unfold groth16_rerandomize
    rw [inv_one]
    decide
  simp only [hrr]
  decide

/-- C1: honest show/verify round-trip of the presentation core.  For any
`ClientState` whose cached Groth16 proof verifies for its cached inputs and
whose verifying key is in the `γ = 1` normal form (amended: the Groth16 CRS
normalization the corrective subtraction relies on, as the counterexample
shows), and any classification `io_types` and context, the `ShowGroth16`
produced by `show_groth16` — committing Committed inputs as
`C_i = L_{i+1}·x_i + δ·ρ_i`, aggregating Hidden inputs into `com_hidden`,
and applying the single corrective subtraction
`π'.C := π'.C − G·(Σ ρ_i + z)` — is accepted by `ShowGroth16::verify` with
the same vk, context, io_types and the honestly revealed values: the
verifier's aggregated `com_inputs` equals the prepared public input plus
`δ·(Σρ + z)`, the adjusted pairing check passes, and the `DLogPoK` check
passes, so verify returns `true`. -/
theorem claim_C1_show_verify_roundtrip (F : Type) [Field F] [DecidableEq F]
    (cs : ClientState F) (context : List Nat) (ioTypes : List PublicIOType)
    (ρ : Nat → F) (z r1 r2 : F) (rsup : Nat → Nat → F) (hash : List (TEntry F) → F)
    (hlen : ioTypes.length = cs.inputs.length)
    (hvklen : cs.vk.gammaABC.length = cs.inputs.length + 1)
    (hvalid : groth16_verify_prepared cs.vk cs.proof
      (groth16_prepare_inputs cs.vk cs.inputs) = true)
    (hr1 : r1 ≠ 0)
    (hgamma : cs.vk.gamma = 1) :
    (show_groth16 cs context ioTypes ρ z r1 r2 rsup hash).bind
      (fun sgops => sgops.1.verify cs.vk context ioTypes
        (revealedInputs cs.inputs ioTypes) hash) = some true := by
  rw [show_groth16, show_prove_eq cs context ioTypes ρ z rsup hash]
  simp only [Option.map_some', Option.some_bind]
  unfold ShowGroth16.verify
  rw [if_pos, if_pos]
  · dsimp only
    rw [verifyBases_eq_showBases cs ioTypes ρ,
      show ((committedOpenings cs.vk cs.inputs ioTypes ρ).map (fun o => o.c)) ++
        [comHidden cs ioTypes z] = showY cs ioTypes ρ z from rfl,
      show_dlog_verifies cs context ioTypes ρ z rsup hash]
    simp only [Option.map_some']
    rw [Bool.and_true, verifyComInputs_honest cs ioTypes ρ z _ _ hlen hvklen,
      groth16_adjusted_check cs.vk cs.proof (groth16_prepare_inputs cs.vk cs.inputs)
        (showAccR cs ioTypes ρ + z) r1 r2 hvalid hr1 hgamma]
  · simp [committedOpenings]
  · simp [revealedInputs]

/-- Witness for C1: the same concrete instance as the counterexample but
with `γ = 1`, accepted end to end. -/
theorem claim_C1_witness :
    (show_groth16 (F := ZMod 5) ⟨[0], ⟨1, 1, 1⟩, ⟨0, 0, 1, 1, [0, 1]⟩⟩ [] [.Committed]
        (fun _ => 1) 1 1 0 (fun _ _ => 0) (fun _ => 0)).bind
      (fun sgops => sgops.1.verify ⟨0, 0, 1, 1, [0, 1]⟩ [] [.Committed]
        (revealedInputs [0] [.Committed]) (fun _ => 0)) = some true :=
  claim_C1_show_verify_roundtrip (ZMod 5) ⟨[0], ⟨1, 1, 1⟩, ⟨0, 0, 1, 1, [0, 1]⟩⟩ []
    [.Committed] (fun _ => 1) 1 1 0 (fun _ _ => 0) (fun _ => 0) (by decide) (by decide)
    (by decide) (by decide) (by decide)

/-- C6 counterexample: the claim quantifies over every `eq_pos` whose listed
scalar positions are equal.  Over `F = ZMod 5`, take two statements with all
named scalars equal to 2, but `eq_pos = [(0,0),(1,0)]` naming position 0 of
statement 1 twice.  `prove` overwrites `r[1][0]` first with `r[0][0]` and
then with `r[0][1]`; since those fresh blindings differ, the verifier's
response check `s[0][0] == s[1][0]` fails and `verify` returns `false`, even
though every listed scalar pair is genuinely equal and each
`y_i = Σ_j bases[i][j]·scalars[i][j]` holds. -/
theorem claim_C6_counterexample :
    ((4 : ZMod 5) = msm_select [1, 1] [2, 2] ∧ (2 : ZMod 5) = msm_select [1] [2] ∧
      (([[2, 2], [2]] : List (List (ZMod 5))).getD 0 []).getD 0 0 =
        (([[2, 2], [2]] : List (List (ZMod 5))).getD 1 []).getD 0 0 ∧
      (([[2, 2], [2]] : List (List (ZMod 5))).getD 0 []).getD 1 0 =
        (([[2, 2], [2]] : List (List (ZMod 5))).getD 1 []).getD 0 0) ∧
    (DLogPoK.prove (F := ZMod 5) (fun _ => 1) [] [4, 2] [[1, 1], [1]] [[2, 2], [2]]
        (some [(0, 0), (1, 0)]) (fun i j => if i = 0 ∧ j = 1 then 1 else 0)).bind
      (fun pf => pf.verify (fun _ => 1) [] [[1, 1], [1]] [4, 2] (some [(0, 0), (1, 0)])) =
      some false := by
  decide

/-- C6: honest round-trip completeness of `DLogPoK`.  If every statement
satisfies `y_i = Σ_j bases[i][j]·scalars[i][j]`, the shapes agree, and the
equality positions (when supplied) are in range, target pairwise-distinct
positions of statement 1 and relate genuinely equal scalars, then the proof
produced by `prove` — whose responses are `s[i][j] = r[i][j] − c·scalars[i][j]`
— is accepted by `verify` with the same context, bases, `y` and `eq_pos`:
the recomputed challenge matches and every `s[0][a] == s[1][b]` check
passes.  (Amended from the original claim: the pairwise-distinctness of the
second components of `eq_pos` is required, as the counterexample shows.) -/
theorem claim_C6_dlog_roundtrip (F : Type) [Field F] [DecidableEq F]
    (hash : List (TEntry F) → F) (context : List Nat)
    (y : List F) (bases scalars : List (List F))
    (eqPos : Option (List (Nat × Nat))) (rsup : Nat → Nat → F)
    (hyb : y.length = bases.length)
    (hbs : bases.length = scalars.length)
    (hrow : ∀ i, i < y.length → (scalars.getD i []).length = (bases.getD i []).length)
    (hy : ∀ i, i < y.length → y.getD i 0 = msm_select (bases.getD i []) (scalars.getD i []))
    (heq : ∀ l, eqPos = some l → y.length = 2 ∧ l.Pairwise (fun p q => p.2 ≠ q.2) ∧
        ∀ p ∈ l, p.1 < (bases.getD 0 []).length ∧ p.2 < (bases.getD 1 []).length ∧
          (scalars.getD 0 []).getD p.1 0 = (scalars.getD 1 []).getD p.2 0) :
    (DLogPoK.prove hash context y bases scalars eqPos rsup).bind
      (fun pf => pf.verify hash context bases y eqPos) = some true := by
  rw [DLogPoK.prove_eq_some hash context y bases scalars eqPos rsup hyb hbs
    (fun i hi => le_of_eq (hrow i hi).symm)
    (fun l hl => ⟨(heq l hl).1, fun p hp => ⟨((heq l hl).2.2 p hp).1, ((heq l hl).2.2 p hp).2.1⟩⟩),
    Option.some_bind]
  exact DLogPoK.verify_proveResult hash context y bases scalars eqPos rsup hyb hrow hy heq

/-- Witness for C6: a concrete two-statement instance over `ZMod 5` with one
equality position, run through the round-trip theorem. -/
theorem claim_C6_witness :
    (DLogPoK.prove (F := ZMod 5) (fun _ => 1) [] [4, 2] [[1, 1], [1]] [[2, 2], [2]]
        (some [(0, 0)]) (fun _ _ => 3)).bind
      (fun pf => pf.verify (fun _ => 1) [] [[1, 1], [1]] [4, 2] (some [(0, 0)])) =
      some true :=
  claim_C6_dlog_roundtrip (ZMod 5) (fun _ => 1) [] [4, 2] [[1, 1], [1]] [[2, 2], [2]]
    (some [(0, 0)]) (fun _ _ => 3) (by decide) (by decide) (by decide) (by decide)
    (fun l hl => by
      obtain rfl : [((0 : Nat), (0 : Nat))] = l := Option.some.inj hl
      decide)

/-- C7: the `eq_pos` feature of `DLogPoK` is restricted to exactly two
statements.  Calling `prove` or `verify` with `eq_pos = Some(..)` and any
other number of statements hits the `assert!(y.len() == 2)` (modelled as
`none`); under the precondition `y.len() == 2` (together with the other
panic guards) `prove` succeeds, so the assertion branch is unreachable. -/
theorem claim_C7_eqpos_two_statements (F : Type) [Field F] [DecidableEq F] :
    (∀ (hash : List (TEntry F) → F) (context : List Nat) (y : List F)
        (bases scalars : List (List F)) (l : List (Nat × Nat)) (rsup : Nat → Nat → F),
        y.length ≠ 2 →
        DLogPoK.prove hash context y bases scalars (some l) rsup = none) ∧
    (∀ (pf : DLogPoK F) (hash : List (TEntry F) → F) (context : List Nat)
        (bases : List (List F)) (y : List F) (l : List (Nat × Nat)),
        y.length ≠ 2 →
        pf.verify hash context bases y (some l) = none) ∧
    (∀ (hash : List (TEntry F) → F) (context : List Nat) (y : List F)
        (bases scalars : List (List F)) (l : List (Nat × Nat)) (rsup : Nat → Nat → F),
        y.length = 2 → y.length = bases.length → bases.length = scalars.length →
        (∀ i, i < y.length → (bases.getD i []).length ≤ (scalars.getD i []).length) →
        (∀ p ∈ l, p.1 < (bases.getD 0 []).length ∧ p.2 < (bases.getD 1 []).length) →
        (DLogPoK.prove hash context y bases scalars (some l) rsup).isSome) := by
  refine ⟨fun hash context y bases scalars l rsup h => ?_,
    fun pf hash context bases y l h => ?_,
    fun hash context y bases scalars l rsup h2 hyb hbs hrow hb => ?_⟩
  · unfold DLogPoK.prove
    split_ifs with h1 h2' h3 h4 <;> try rfl
    rw [Bool.and_eq_true, decide_eq_true_eq] at h3
    exact absurd h3.1 h
  · unfold DLogPoK.verify
    simp only [if_neg h]
    split_ifs <;> rfl
  · rw [DLogPoK.prove_eq_some hash context y bases scalars (some l) rsup hyb hbs hrow
      (fun l' hl' => ⟨h2, fun p hp =>
        hb p (by rw [Option.some.inj hl']; exact hp)⟩)]
    rfl

/-- Witness for C7: over `ZMod 5`, `prove` and `verify` with three
statements and a non-trivial `eq_pos` return `none`, while a well-formed
two-statement call succeeds. -/
theorem claim_C7_witness :
    DLogPoK.prove (F := ZMod 5) (fun _ => 1) [] [0, 0, 0] [[1], [1], [1]] [[0], [0], [0]]
        (some [(0, 0)]) (fun _ _ => 0) = none ∧
    DLogPoK.verify (F := ZMod 5) ⟨1, [[0], [0], [0]]⟩ (fun _ => 1) [] [[1], [1], [1]]
        [0, 0, 0] (some [(0, 0)]) = none ∧
    (DLogPoK.prove (F := ZMod 5) (fun _ => 1) [] [2, 2] [[1], [1]] [[2], [2]]
        (some [(0, 0)]) (fun _ _ => 0)).isSome :=
  ⟨(claim_C7_eqpos_two_statements (ZMod 5)).1 (fun _ => 1) [] [0, 0, 0] [[1], [1], [1]]
      [[0], [0], [0]] [(0, 0)] (fun _ _ => 0) (by decide),
   (claim_C7_eqpos_two_statements (ZMod 5)).2.1 ⟨1, [[0], [0], [0]]⟩ (fun _ => 1) []
      [[1], [1], [1]] [0, 0, 0] [(0, 0)] (by decide),
   (claim_C7_eqpos_two_statements (ZMod 5)).2.2 (fun _ => 1) [] [2, 2] [[1], [1]]
      [[2], [2]] [(0, 0)] (fun _ _ => 0) (by decide) (by decide) (by decide)
      (by decide) (by decide)⟩

/-- C2 counterexample: a device-bound presentation whose show proof lacks a
device proof makes `verify_show` fail with the non-empty reason string
`"Device proof missing in show_proof"` (lib.rs line 672), not `(false, "")`. -/
theorem claim_C2_counterexample :
    verify_show envDeviceMissing =
      .ok (false, "Device proof missing in show_proof") ∧
    ("Device proof missing in show_proof" : String) ≠ "" := by
  exact ⟨rfl, by decide⟩

/-- C2 (amended): every run of `verify_show` or `verify_show_mdl` either
panics, fails with the bare `(false, "")`, fails with the non-empty message
`(false, "Device proof missing in show_proof")` — this one only when the
credential is device-bound and the show proof has no device proof — or fully
succeeds.  So all failures that return collapse to `(false, "")` except the
missing-device-proof case, and some failures are panics rather than
returns. -/
theorem claim_C2_failure_collapse :
    (∀ env : VerifyShowEnv,
      ResultShape env.deviceBound env.deviceProofPresent env.successJson
        (verify_show env)) ∧
    (∀ env : VerifyShowMdlEnv,
      ResultShape env.deviceBound env.deviceProofPresent env.successJson
        (verify_show_mdl env)) :=
  ⟨verify_show_cases, verify_show_mdl_cases⟩

/-- C2 witness: the failure-shape theorem evaluated on the concrete
device-bound environment. -/
theorem claim_C2_witness :
    ResultShape envDeviceMissing.deviceBound envDeviceMissing.deviceProofPresent
      envDeviceMissing.successJson (verify_show envDeviceMissing) :=
  claim_C2_failure_collapse.1 envDeviceMissing

/-- C4 counterexample: a `ShowProof` 301 seconds old is not rejected on
freshness before the cryptographic checks — the Groth16 verification (here:
one that panics) runs first, so `verify_show` panics instead of returning
`(false, "")`.  In the source the freshness comparison sits at lib.rs lines
636-644, after the `show_groth16.verify` call at lines 630-635. -/
theorem claim_C4_counterexample :
    SHOW_PROOF_VALIDITY_SECONDS < envStalePanic.nowSeconds - envStalePanic.curTime ∧
    verify_show envStalePanic = .error .panic :=
  ⟨by decide, rfl⟩

/-- C4 (amended): the freshness window itself is as claimed — a proof whose
`cur_time` is more than 300 seconds old is rejected with `(false, "")` and a
proof within the window is accepted when all other checks pass — but the
freshness comparison runs AFTER the Groth16 cryptographic check, not before
any cryptographic check ([claim_C4_counterexample]).  Stated for both
`verify_show` and `verify_show_mdl`, in each case assuming the checks that
precede the freshness comparison succeed and the Groth16 check passes. -/
theorem claim_C4_freshness_window :
    (∀ env : VerifyShowEnv, env.preFreshnessOk → env.groth16 = some true →
        SHOW_PROOF_VALIDITY_SECONDS < env.nowSeconds - env.curTime →
        verify_show env = .ok (false, "")) ∧
    (∀ env : VerifyShowEnv, env.preFreshnessOk → env.groth16 = some true →
        env.nowSeconds - env.curTime ≤ SHOW_PROOF_VALIDITY_SECONDS →
        env.postChecksOk → verify_show env = .ok (true, env.successJson)) ∧
    (∀ env : VerifyShowMdlEnv, env.preFreshnessOk → env.groth16 = some true →
        SHOW_PROOF_VALIDITY_SECONDS < env.nowSeconds - env.curTime →
        verify_show_mdl env = .ok (false, "")) ∧
    (∀ env : VerifyShowMdlEnv, env.preFreshnessOk → env.groth16 = some true →
        env.nowSeconds - env.curTime ≤ SHOW_PROOF_VALIDITY_SECONDS →
        env.postChecksOk → verify_show_mdl env = .ok (true, env.successJson)) :=
  ⟨verify_show_stale_rejects, verify_show_accepts,
   verify_show_mdl_stale_rejects, verify_show_mdl_accepts⟩

/-- C4 witness: the four freshness-window statements evaluated on concrete
stale (301 s) and fresh (300 s) environments. -/
theorem claim_C4_witness :
    verify_show envC4Stale = .ok (false, "") ∧
    verify_show envC4Fresh = .ok (true, envC4Fresh.successJson) ∧
    verify_show_mdl envC4MdlStale = .ok (false, "") ∧
    verify_show_mdl envC4MdlFresh = .ok (true, envC4MdlFresh.successJson) :=
  ⟨claim_C4_freshness_window.1 envC4Stale (by decide) rfl (by decide),
   claim_C4_freshness_window.2.1 envC4Fresh (by decide) rfl (by decide) (by decide),
   claim_C4_freshness_window.2.2.1 envC4MdlStale (by decide) rfl (by decide),
   claim_C4_freshness_window.2.2.2 envC4MdlFresh (by decide) rfl (by decide) (by decide)⟩

/-- C9: a `ShowProof` whose `cur_time` is at or after the verifier clock is
never rejected as stale: the age `now_seconds.saturating_sub(cur_time)`
(truncated subtraction on `Nat`) is then `0 ≤ 300`, so given all other
checks pass, `verify_show` and `verify_show_mdl` accept, however far in the
future `cur_time` lies. -/
theorem claim_C9_future_not_stale :
    (∀ env : VerifyShowEnv, env.nowSeconds ≤ env.curTime →
        env.preFreshnessOk → env.groth16 = some true → env.postChecksOk →
        verify_show env = .ok (true, env.successJson)) ∧
    (∀ env : VerifyShowMdlEnv, env.nowSeconds ≤ env.curTime →
        env.preFreshnessOk → env.groth16 = some true → env.postChecksOk →
        verify_show_mdl env = .ok (true, env.successJson)) := by
  constructor
  · intro env hle hpre hg hpost
    exact verify_show_accepts env hpre hg (by omega) hpost
  · intro env hle hpre hg hpost
    exact verify_show_mdl_accepts env hpre hg (by omega) hpost

/-- C9 witness: environments whose `cur_time` is about 31 years in the
future of the verifier clock are accepted. -/
theorem claim_C9_witness :
    verify_show envC9Future = .ok (true, envC9Future.successJson) ∧
    verify_show_mdl envC9MdlFuture = .ok (true, envC9MdlFuture.successJson) :=
  ⟨claim_C9_future_not_stale.1 envC9Future (by decide) (by decide) rfl (by decide),
   claim_C9_future_not_stale.2 envC9MdlFuture (by decide) (by decide) rfl (by decide)⟩

/-- C3 counterexample: with `exp = cur_time − 10`, the shifted committed
message is `−10 mod r`, whose canonical representative `r − 10` is outside
`[0, 2^32)`, so `show_range`'s `assert!(ped_open.m < bound)` fires and
`create_show_proof` panics: the presentation never goes through show, and
the verifier never runs. -/
theorem claim_C3_counterexample :
    create_show_proof_expiration
      ((1000000 : ZMod bn254_r) - ((10 : Nat) : ZMod bn254_r)) 1000000 =
      .error .panic :=
  expiration_expired_panics 1000000 10 (by decide) (by decide)

/-- C3 (amended): presenting an already-expired credential does not go
through show and is not rejected by the verifier — `create_show_proof`
itself panics.  For every `cur_time` and every past offset `d` with
`0 < d ≤ r − 2^32`, setting `exp = cur_time − d` makes the expiration
sub-proof's shifted message equal `−d mod r`, with representative
`r − d ≥ 2^32`, so the `assert!(ped_open.m < bound)` in
`ClientState::show_range` fires before any proof is assembled. -/
theorem claim_C3_expired_prover_panics (curTime : ZMod bn254_r) (d : Nat)
    (hd : 0 < d) (hdb : d ≤ bn254_r - 2 ^ 32) :
    create_show_proof_expiration (curTime - d) curTime = .error .panic :=
  expiration_expired_panics curTime d hd hdb

/-- C3 witness: the amended theorem at `cur_time = 1384`, `d = 300`. -/
theorem claim_C3_witness :
    0 < 300 ∧ 300 ≤ bn254_r - 2 ^ 32 ∧
    create_show_proof_expiration
      ((1384 : ZMod bn254_r) - ((300 : Nat) : ZMod bn254_r)) 1384 =
      .error .panic :=
  ⟨by decide, by decide,
    claim_C3_expired_prover_panics 1384 300 (by decide) (by decide)⟩

/-- C10: with `device_bound = false` and a non-empty `range_over_year`, the
attribute-range loop of `create_show_proof_mdl` always panics.  The loop
consumes `committed_input_openings[3]`, `[4]`, … (commitment_index starts at
3, unconditionally skipping the two device-key slots), but `show_groth16`
produces one opening per `Committed` entry of `io_types`, and without device
binding at most `1 + k` entries are `Committed` (`valid_until_value` plus
the `k` range attributes) — fewer than the last index `3 + k − 1` the loop
touches, so the Rust index panics instead of returning an error. -/
theorem claim_C10_mdl_commit_index_panics (inputsLen validUntilPos : Nat)
    (rangeLocs pubKeyIdx revealedLocs hashedLocs : List Nat) (dk0 dk1 : Nat)
    (openings : List (PedersenOpening (ZMod bn254_r))) (ages : List (ZMod bn254_r))
    (hk : ages.length = rangeLocs.length) (hne : 0 < ages.length)
    (hop : openings.length =
      (idxOf (mdl_io_types inputsLen validUntilPos rangeLocs pubKeyIdx revealedLocs
        hashedLocs false dk0 dk1) .Committed).length) :
    create_show_proof_mdl_ranges openings ages 3 = .error .panic := by
  have hcount := mdl_io_types_committed_le inputsLen validUntilPos rangeLocs
    pubKeyIdx revealedLocs hashedLocs dk0 dk1
  exact mdl_ranges_oob ages openings 3 hne (by omega)

/-- C10 witness: six inputs, `valid_until_value` at location 1, a single
range attribute at location 2, no revealed/hashed attributes — two
committed openings exist and the loop immediately indexes position 3. -/
theorem claim_C10_witness :
    create_show_proof_mdl_ranges
      [⟨[], 0, 0, 0⟩, ⟨[], 0, 0, 0⟩] [(0 : ZMod bn254_r)] 3 = .error .panic :=
  claim_C10_mdl_commit_index_panics 6 1 [2] [] [] [] 0 0
    [⟨[], 0, 0, 0⟩, ⟨[], 0, 0, 0⟩] [0] rfl (by decide) rfl

/-- C8: `days_to_be_age` strict monotonicity holds for the code as written,
but the code does NOT compute proleptic Gregorian ordinals as the claim
describes: `days_before_year` (daystamp.rs line 19) computes
`y*365 + y/4 + y/100 + y/400`, adding `y/100` where the CPython source it
declares itself a port of subtracts it, so every century year is counted as
a leap year.  First conjunct: the divergence at concrete inputs —
`ymd_to_ordinal(101,1,1)` is 36527 instead of the Gregorian 36525, and
`days_to_be_age(1)` on the local date 2001-01-01 is 368 instead of the 366
days from 2000-01-01 (a leap year) to 2001-01-01.  Second conjunct: strict
monotonicity in the age nevertheless holds whenever both values are
defined and the shifted year stays at least 1. -/
theorem claim_C8_gregorian_port_bug :
    (ymd_to_ordinal 101 1 1 = some 36527 ∧
     spec_ymd_to_ordinal 101 1 1 = some 36525 ∧
     days_to_be_age 2001 1 1 1 = some 368 ∧
     spec_days_to_be_age 2001 1 1 1 = some 366) ∧
    (∀ Y M D a v w, a + 2 ≤ Y →
      days_to_be_age Y M D a = some v →
      days_to_be_age Y M D (a + 1) = some w → v < w) := by
  refine ⟨⟨by decide, by decide, by decide, by decide⟩, ?_⟩
  intro Y M D a v w hY hv hw
  obtain ⟨ts, p1, hts, hp1, hlt1, hveq⟩ := days_to_be_age_some hv
  obtain ⟨ts2, p2, hts2, hp2, hlt2, hweq⟩ := days_to_be_age_some hw
  rw [hts] at hts2
  have htseq : ts2 = ts := (Option.some.inj hts2).symm
  subst htseq
  have hy1 : Y - a = (Y - (a + 1)) + 1 := by omega
  have hy2 : 1 ≤ Y - (a + 1) := by omega
  rw [hy1] at hp1
  have hp2p1 : p2 < p1 := ymd_strict_mono hy2 hp2 hp1
  omega

/-- C8 witness: monotonicity evaluated on the local date 2024-05-15 at ages
1 and 2: 366 days to be 1 year old, 731 to be 2. -/
theorem claim_C8_witness :
    days_to_be_age 2024 5 15 1 = some 366 ∧
    days_to_be_age 2024 5 15 2 = some 731 ∧ (366 : Nat) < 731 :=
  ⟨by decide, by decide,
    claim_C8_gregorian_port_bug.2 2024 5 15 1 366 731 (by decide) (by decide)
      (by decide)⟩

/-- C5: range-proof completeness and the `2^n` boundary.  Over any prime
field, for a domain generator `ω` of order `n` (`n ≥ 3` a power of two,
invertible in the field), any valid Pedersen opening of `m`, any RNG
blindings and any Fiat-Shamir hash functions whose `ρ` challenge avoids the
two poles `1` and `ω^{n-1}` of the verifier's divisions: if `m.val < 2^n`
then `prove_n_bits` succeeds and `verify_n_bits` accepts the resulting
proof against the opening's commitment and bases, and if `m.val = 2^n`
(with additionally `ρ^n ≠ 1`) then `prove_n_bits` still succeeds but
`verify_n_bits` rejects the resulting proof: the prover's `g` interpolates
the low `n` bits of `2^n` (all zero), so `g(1) − m = −m ≠ 0` and the
verifier's recombined `eval_w = (ρⁿ−1)·(g(1)−m)/(ρ−1)` is nonzero. -/
theorem claim_C5_range_completeness_boundary (p : Nat) [Fact (Nat.Prime p)]
    (E : RangeEnv p) (b0 b1 : ZMod p)
    (hpow : is_power_of_two E.n = true) (hn : 3 ≤ E.n)
    (hω : E.omg ^ E.n = 1) (hprim : ∀ k, 0 < k → k < E.n → E.omg ^ k ≠ 1)
    (hnF : (E.n : ZMod p) ≠ 0)
    (hbases : E.ped.bases = [b0, b1])
    (hc : E.ped.c = b0 * E.ped.m + b1 * E.ped.r)
    (hφf : E.phi_f.length = 3)
    (hρ1 : rpRho E ≠ 1) (hρω : rpRho E ≠ E.omg ^ (E.n - 1)) :
    (E.ped.m.val < 2 ^ E.n →
      ∃ pf, prove_n_bits E = some pf ∧
        verify_n_bits E.n E.beta E.gamma E.omg pf E.ped.c b0 b1
          E.hashC E.hashRho E.dloghash E.u1 E.u2 = some true) ∧
    (E.ped.m.val = 2 ^ E.n → rpRho E ^ E.n ≠ 1 →
      ∃ pf, prove_n_bits E = some pf ∧
        verify_n_bits E.n E.beta E.gamma E.omg pf E.ped.c b0 b1
          E.hashC E.hashRho E.dloghash E.u1 E.u2 = some false) := by
  have hn1 : 1 ≤ E.n := by omega
  have hA : rpRho E - 1 ≠ 0 := sub_ne_zero_of_ne hρ1
  have hB : rpRho E - E.omg ^ (E.n - 1) ≠ 0 := sub_ne_zero_of_ne hρω
  set PRF := DLogPoK.proveResult E.dloghash [] [E.ped.c, rpComF E]
    [E.ped.bases, com_f_basis E.beta E.gamma]
    [[E.ped.m, E.ped.r], E.phi_f ++ [E.ped.m]] (some [(0, 3)]) E.rsup with hPRF
  have hprove : prove_n_bits E = some (rpProof E PRF) := by
    unfold prove_n_bits
    rw [if_neg (by simp [hpow]), if_neg (by omega),
      rpDleq_eq E b0 b1 hbases hφf, Option.map_some']
  have hbatch := rp_batch_passes E PRF
  have hmaster := vEvalW_master E PRF hn1 hω hA hB
  have hr2 := rem2_zero E hn1 hω hprim hnF
  have hr3 := rem3_zero E hn1 hω hprim hnF (rpRho E)
  constructor
  · intro hm
    have hr1 := rem1_inrange E hn1 hω hprim hnF hm
    have hW : vEvalW E.n E.omg (rpProof E PRF) E.hashC E.hashRho = 0 := by
      rw [hmaster, hr1, hr2, hr3]
      ring
    refine ⟨rpProof E PRF, hprove, ?_⟩
    unfold verify_n_bits
    rw [if_neg (not_not_intro hbatch), if_neg (not_not_intro hW)]
    exact rpDleq_verify E b0 b1 hbases hc hφf
  · intro hm hρn
    have hr1 := rem1_boundary E hn1 hω hprim hnF hm
    have hm0 : E.ped.m ≠ 0 := by
      intro h0
      rw [h0, ZMod.val_zero] at hm
      have h2 : 0 < 2 ^ E.n := pow_pos (by norm_num) E.n
      omega
    have hK : rpRho E ^ E.n - 1 ≠ 0 := sub_ne_zero_of_ne hρn
    have hW : vEvalW E.n E.omg (rpProof E PRF) E.hashC E.hashRho =
        (rpRho E ^ E.n - 1) * (-E.ped.m) / (rpRho E - 1) := by
      rw [hmaster, hr1, hr2, hr3]
      ring
    have hWne : ¬ (vEvalW E.n E.omg (rpProof E PRF) E.hashC E.hashRho = 0) := by
      rw [hW]
      exact div_ne_zero (mul_ne_zero hK (neg_ne_zero.mpr hm0)) hA
    refine ⟨rpProof E PRF, hprove, ?_⟩
    unfold verify_n_bits
    rw [if_neg (not_not_intro hbatch), if_pos hWne]

/-- C5 witness: over `ZMod 17` with `n = 4`, `ω = 4`, the value `6 < 16`
is proved and accepted while the boundary value `16 = 2^4` is proved and
rejected. -/
theorem claim_C5_witness :
    (∃ pf, prove_n_bits E17a = some pf ∧
      verify_n_bits E17a.n E17a.beta E17a.gamma E17a.omg pf E17a.ped.c 5 7
        E17a.hashC E17a.hashRho E17a.dloghash E17a.u1 E17a.u2 = some true) ∧
    (∃ pf, prove_n_bits E17b = some pf ∧
      verify_n_bits E17b.n E17b.beta E17b.gamma E17b.omg pf E17b.ped.c 5 7
        E17b.hashC E17b.hashRho E17b.dloghash E17b.u1 E17b.u2 = some false) :=
  ⟨(claim_C5_range_completeness_boundary 17 E17a 5 7 (by decide) (by decide)
      (by decide) (by intro k h1 h2; have h3 : k < 4 := h2; clear h2; interval_cases k <;> decide)
      (by decide) rfl (by decide) rfl (by decide) (by decide)).1 (by decide),
   (claim_C5_range_completeness_boundary 17 E17b 5 7 (by decide) (by decide)
      (by decide) (by intro k h1 h2; have h3 : k < 4 := h2; clear h2; interval_cases k <;> decide)
      (by decide) rfl (by decide) rfl (by decide) (by decide)).2 (by decide) (by decide)⟩

end Crescent
